import Mathlib

/-!
Verification development for the persist durable-state encoding subsystem
(`src/persist-client/src/internal/encoding.rs`).

The Rust code is shallowly embedded:

* machine integers become `Nat` / `Fin` with explicit bounds (`u64` is
  `Fin (2 ^ 64)`, bytes are `Fin 256`);
* the protobuf byte layer is modeled at message granularity: an encoded
  buffer is `Option` of the decoded message (`none` stands for a byte
  buffer that does not decode to the expected message), and the nested
  `encode_to_vec` chunks inside `ProtoStateFieldDiffs` are modeled by a
  sum type `ProtoVal` of the message types that actually occur there;
* library string codecs (semver `Display`/`parse`, uuid canonical
  rendering/parsing) are implemented concretely on characters, following
  their documented canonical formats;
* `halt!` and `expect`/`assert` (abnormal process exits) are modeled as
  the `error` branch of `Except`, with a dedicated constructor telling a
  version-gate halt apart from an invalid-encoded-state panic;
* types whose definitions live in repository files not included under
  `src/` (`Trace`, `IdempotencyToken::SENTINEL`, the `ProtoStateFieldDiffs`
  accessors, `State::apply_encoded_diffs`, the id `FromStr`/`Display`
  impls, `PersistConfig::DEFAULT_READ_LEASE_DURATION`) are modeled from
  the specification; each such definition carries a doc comment starting
  with "Modelled from the spec:".

The timestamp type parameter `T` is instantiated at `u64` (`Codec64` via
little-endian bytes, `Timestamp::minimum() = 0`), the instance used by
every test of the repository and by the spec's scenarios.
-/

namespace Persist

/-- Bytes: naturals below 256, as produced by `to_le_bytes`. -/
abbrev Byte := Fin 256

instance : NeZero (2 ^ 64) := ⟨by norm_num⟩

/-- Unsigned 64-bit integers (`u64`), the timestamp type `T`. -/
abbrev U64 := Fin (2 ^ 64)

/-- Timestamp::minimum() for `u64`. -/
def u64Minimum : U64 := ⟨0, by norm_num⟩

/-- Codec64::codec_name() for `u64`. -/
def u64CodecName : String := "u64"

/-- The `k` little-endian base-256 digits of `n` (`to_le_bytes` at width `k`). -/
def natLeBytes : Nat → Nat → List Nat
  | 0, _ => []
  | k + 1, n => n % 256 :: natLeBytes k (n / 256)

/-- Reassemble a little-endian byte list into a natural (`from_le_bytes`). -/
def natFromLeBytes : List Nat → Nat
  | [] => 0
  | b :: bs => b + 256 * natFromLeBytes bs

/-- Reinterpretation of 8 little-endian bytes as a signed 64-bit integer
(`i64::from_le_bytes`), two's complement. -/
def i64FromLeBytes (bs : List Nat) : Int :=
  if natFromLeBytes bs < 2 ^ 63 then (natFromLeBytes bs : Int)
  else (natFromLeBytes bs : Int) - 2 ^ 64

/-- Little-endian bytes of a signed 64-bit integer (`i64::to_le_bytes`),
two's complement. -/
def i64ToLeBytes (x : Int) : List Nat :=
  natLeBytes 8 (x % (2 ^ 64 : Int)).toNat

/-- Decode a wire element back into a `u64` timestamp: `T::decode(x.to_le_bytes())`.
Reassembling 8 bytes always yields a value below `2 ^ 64`; the reduction
modulo `2 ^ 64` only discharges the `Fin` bound and is proved to be the
identity on round trips. -/
def u64DecodeI64 (x : Int) : U64 :=
  ⟨natFromLeBytes (i64ToLeBytes x) % 2 ^ 64, Nat.mod_lt _ (by norm_num)⟩

/-- Encode a `u64` timestamp as a wire element:
`i64::from_le_bytes(T::encode(t))`. -/
def u64EncodeI64 (t : U64) : Int :=
  i64FromLeBytes (natLeBytes 8 t.val)

/-! Decimal rendering and parsing of naturals, the digits part of the semver
`Display`/`parse` pair used for `applier_version` strings. -/

/-- Fuelled digit loop of decimal rendering (structural in the fuel so
that concrete renderings evaluate). -/
def toDecimalAux : Nat → Nat → List Char
  | 0, _ => []
  | fuel + 1, n =>
    if n < 10 then [Nat.digitChar n]
    else toDecimalAux fuel (n / 10) ++ [Nat.digitChar (n % 10)]

/-- Decimal digits of `n`, most significant first. -/
def toDecimal (n : Nat) : List Char :=
  toDecimalAux (n + 1) n

/-- Value of a decimal digit character. -/
def decCharVal (c : Char) : Option Nat :=
  if 48 ≤ c.toNat ∧ c.toNat ≤ 57 then some (c.toNat - 48) else none

/-- Left-to-right accumulator loop of decimal parsing. -/
def fromDecimalAux : List Char → Nat → Option Nat
  | [], acc => some acc
  | c :: cs, acc =>
    match decCharVal c with
    | some d => fromDecimalAux cs (acc * 10 + d)
    | none => none

/-- Parse a nonempty all-digit character list as a natural. -/
def fromDecimal (cs : List Char) : Option Nat :=
  match cs with
  | [] => none
  | _ => fromDecimalAux cs 0

/-- Split a character list at every dot, keeping empty groups. -/
def splitDots : List Char → List (List Char)
  | [] => [[]]
  | c :: rest =>
    if c = '.' then [] :: splitDots rest
    else
      match splitDots rest with
      | g :: gs => (c :: g) :: gs
      | [] => [[c]]

/-- Semver versions. The repository only ever constructs plain
`major.minor.patch` versions (`semver::Version::new`), so pre-release and
build metadata are not modeled. -/
structure Version where
  major : Nat
  minor : Nat
  patch : Nat
deriving DecidableEq

/-- Rust `Ord` on semver versions restricted to plain versions:
lexicographic on (major, minor, patch). -/
def Version.lt (a b : Version) : Bool :=
  if a.major ≠ b.major then decide (a.major < b.major)
  else if a.minor ≠ b.minor then decide (a.minor < b.minor)
  else decide (a.patch < b.patch)

/-- Display of a semver version: `major.minor.patch` in decimal. -/
def Version.toString (v : Version) : String :=
  String.mk (toDecimal v.major ++ '.' :: toDecimal v.minor ++ '.' :: toDecimal v.patch)

/-- Parse of a plain semver version string. (The real `semver` parser also
rejects leading zeros and accepts pre-release suffixes; neither shape is
ever produced by the code under verification, whose version strings all
come from `Version::toString`.) -/
def Version.parse (s : String) : Option Version :=
  match splitDots s.toList with
  | [a, b, c] =>
    match fromDecimal a, fromDecimal b, fromDecimal c with
    | some x, some y, some z => some ⟨x, y, z⟩
    | _, _, _ => none
  | _ => none

/-! Hexadecimal byte rendering and parsing, the digits part of the
canonical uuid format. -/

/-- Lowercase hex character pair of a byte, high nibble first. -/
def byteHexChars (b : Byte) : List Char :=
  [Nat.digitChar (b.val / 16), Nat.digitChar (b.val % 16)]

/-- Value of one hex digit character (lowercase letters, as in canonical
uuid rendering). -/
def hexCharVal (c : Char) : Option (Fin 16) :=
  if h : 48 ≤ c.toNat ∧ c.toNat ≤ 57 then some ⟨c.toNat - 48, by omega⟩
  else if h : 97 ≤ c.toNat ∧ c.toNat ≤ 102 then some ⟨c.toNat - 87, by omega⟩
  else none

/-- Parse a byte from two hex characters. -/
def hexByte (c1 c2 : Char) : Option Byte :=
  match hexCharVal c1, hexCharVal c2 with
  | some h, some l => some ⟨h.val * 16 + l.val, by omega⟩
  | _, _ => none

/-! Identifiers. Every persist id is 16 raw uuid bytes; its string form is a
one-character domain prefix followed by the canonical hyphenated lowercase
uuid (spec section 3, "Identifiers"). The bytes are spelled out as sixteen
fields so that every value is well formed by construction. -/

/-- Sixteen raw uuid bytes (`[u8; 16]`), in order. -/
structure Uuid where
  b0 : Byte
  b1 : Byte
  b2 : Byte
  b3 : Byte
  b4 : Byte
  b5 : Byte
  b6 : Byte
  b7 : Byte
  b8 : Byte
  b9 : Byte
  b10 : Byte
  b11 : Byte
  b12 : Byte
  b13 : Byte
  b14 : Byte
  b15 : Byte
deriving DecidableEq

/-- Canonical hyphenated lowercase rendering of a uuid: 8-4-4-4-12 hex
digits covering bytes 0-3, 4-5, 6-7, 8-9, 10-15. -/
def Uuid.chars (u : Uuid) : List Char :=
  byteHexChars u.b0 ++ byteHexChars u.b1 ++ byteHexChars u.b2 ++ byteHexChars u.b3 ++
    '-' :: (byteHexChars u.b4 ++ byteHexChars u.b5 ++
      '-' :: (byteHexChars u.b6 ++ byteHexChars u.b7 ++
        '-' :: (byteHexChars u.b8 ++ byteHexChars u.b9 ++
          '-' :: (byteHexChars u.b10 ++ byteHexChars u.b11 ++ byteHexChars u.b12 ++
            byteHexChars u.b13 ++ byteHexChars u.b14 ++ byteHexChars u.b15))))

/-- Parse the canonical hyphenated uuid character sequence
(`Uuid::parse_str` restricted to the canonical form the code emits). -/
def Uuid.parseChars (cs : List Char) : Option Uuid :=
  match cs with
  | a1 :: a2 :: a3 :: a4 :: a5 :: a6 :: a7 :: a8 :: h1 ::
      g1 :: g2 :: g3 :: g4 :: h2 ::
      c1 :: c2 :: c3 :: c4 :: h3 ::
      d1 :: d2 :: d3 :: d4 :: h4 ::
      e1 :: e2 :: e3 :: e4 :: e5 :: e6 :: e7 :: e8 :: e9 :: e10 :: e11 :: e12 :: [] =>
    if h1 = '-' ∧ h2 = '-' ∧ h3 = '-' ∧ h4 = '-' then do
      let x0 ← hexByte a1 a2
      let x1 ← hexByte a3 a4
      let x2 ← hexByte a5 a6
      let x3 ← hexByte a7 a8
      let x4 ← hexByte g1 g2
      let x5 ← hexByte g3 g4
      let x6 ← hexByte c1 c2
      let x7 ← hexByte c3 c4
      let x8 ← hexByte d1 d2
      let x9 ← hexByte d3 d4
      let x10 ← hexByte e1 e2
      let x11 ← hexByte e3 e4
      let x12 ← hexByte e5 e6
      let x13 ← hexByte e7 e8
      let x14 ← hexByte e9 e10
      let x15 ← hexByte e11 e12
      some ⟨x0, x1, x2, x3, x4, x5, x6, x7, x8, x9, x10, x11, x12, x13, x14, x15⟩
    else none
  | _ => none

/-- Errors of the `from_proto` conversions (`TryFromProtoError`); only the
variants this file can produce are modeled. `missingField` stands for the
error built by `into_rust_if_some`. -/
inductive TryFromProtoError where
  | invalidShardId (s : String)
  | invalidSemverVersion (s : String)
  | invalidPersistState (s : String)
  | missingField (s : String)
deriving DecidableEq

/-- Helper `into_rust_if_some`: a required sub-message that is absent
becomes a `missingField` error. -/
def intoRustIfSome {α β : Type} (f : α → Except TryFromProtoError β) (field : String) :
    Option α → Except TryFromProtoError β
  | none => .error (.missingField field)
  | some a => f a

/-- Source `parse_id` (encoding.rs): strip the one-character prefix, then
parse the remainder as a uuid. The uuid-crate error text is abbreviated. -/
def parse_id (idPrefix : Char) (idType : String) (encoded : String) : Except String Uuid :=
  match encoded.toList with
  | [] => .error ("invalid " ++ idType ++ " " ++ encoded ++ ": incorrect prefix")
  | c :: rest =>
    if c = idPrefix then
      match Uuid.parseChars rest with
      | some u => .ok u
      | none => .error ("invalid " ++ idType ++ " " ++ encoded ++ ": uuid parse error")
    else .error ("invalid " ++ idType ++ " " ++ encoded ++ ": incorrect prefix")

/-- Shard identifier (prefix `s`). -/
structure ShardId where
  uuid : Uuid
deriving DecidableEq

/-- Modelled from the spec: `Display for ShardId` (defined outside src/):
prefix `s` plus the canonical uuid. -/
def ShardId.toString (x : ShardId) : String :=
  String.mk ('s' :: x.uuid.chars)

/-- RustType<String>::from_proto for ShardId: parse, mapping any failure
to `InvalidShardId` carrying the offending string. -/
def ShardId.from_proto (s : String) : Except TryFromProtoError ShardId :=
  match parse_id 's' "ShardId" s with
  | .ok u => .ok ⟨u⟩
  | .error _ => .error (.invalidShardId s)

/-- Leased reader identifier (prefix `r`). -/
structure LeasedReaderId where
  uuid : Uuid
deriving DecidableEq

/-- Modelled from the spec: `Display for LeasedReaderId`: prefix `r` plus
the canonical uuid. -/
def LeasedReaderId.toString (x : LeasedReaderId) : String :=
  String.mk ('r' :: x.uuid.chars)

/-- RustType<String>::from_proto for LeasedReaderId (the error variant is
reused for all id kinds, as in the source). -/
def LeasedReaderId.from_proto (s : String) : Except TryFromProtoError LeasedReaderId :=
  match parse_id 'r' "LeasedReaderId" s with
  | .ok u => .ok ⟨u⟩
  | .error _ => .error (.invalidShardId s)

/-- Critical reader identifier (prefix `c`). -/
structure CriticalReaderId where
  uuid : Uuid
deriving DecidableEq

/-- Modelled from the spec: `Display for CriticalReaderId`: prefix `c` plus
the canonical uuid. -/
def CriticalReaderId.toString (x : CriticalReaderId) : String :=
  String.mk ('c' :: x.uuid.chars)

/-- RustType<String>::from_proto for CriticalReaderId. -/
def CriticalReaderId.from_proto (s : String) : Except TryFromProtoError CriticalReaderId :=
  match parse_id 'c' "CriticalReaderId" s with
  | .ok u => .ok ⟨u⟩
  | .error _ => .error (.invalidShardId s)

/-- Writer identifier (prefix `w`). -/
structure WriterId where
  uuid : Uuid
deriving DecidableEq

/-- Modelled from the spec: `Display for WriterId`: prefix `w` plus the
canonical uuid. -/
def WriterId.toString (x : WriterId) : String :=
  String.mk ('w' :: x.uuid.chars)

/-- RustType<String>::from_proto for WriterId. -/
def WriterId.from_proto (s : String) : Except TryFromProtoError WriterId :=
  match parse_id 'w' "WriterId" s with
  | .ok u => .ok ⟨u⟩
  | .error _ => .error (.invalidShardId s)

/-- Idempotency token (prefix `i`). -/
structure IdempotencyToken where
  uuid : Uuid
deriving DecidableEq

/-- Modelled from the spec: `Display for IdempotencyToken`: prefix `i` plus
the canonical uuid. -/
def IdempotencyToken.toString (x : IdempotencyToken) : String :=
  String.mk ('i' :: x.uuid.chars)

/-- RustType<String>::from_proto for IdempotencyToken. -/
def IdempotencyToken.from_proto (s : String) : Except TryFromProtoError IdempotencyToken :=
  match parse_id 'i' "IdempotencyToken" s with
  | .ok u => .ok ⟨u⟩
  | .error _ => .error (.invalidShardId s)

/-- The all-zero uuid. -/
def zeroUuid : Uuid :=
  ⟨0, 0, 0, 0, 0, 0, 0, 0, 0, 0, 0, 0, 0, 0, 0, 0⟩

/-- Modelled from the spec: `IdempotencyToken::SENTINEL` (defined outside
src/) is a fixed uuid reserved as "unknown prior write"; the spec suggests
the constant all-zeros uuid. -/
def IdempotencyToken.SENTINEL : IdempotencyToken := ⟨zeroUuid⟩

/-! Frontiers. An `Antichain<u64>` over the totally ordered timestamp type
`u64` is either empty (the maximal frontier) or a single timestamp; it is
modeled as `Option U64` with `none` for the empty antichain. -/

/-- Antichain over `u64`: empty or a singleton. -/
abbrev Frontier := Option U64

/-- Antichain::elements(). -/
def Frontier.elements : Frontier → List U64
  | none => []
  | some t => [t]

/-- Antichain::insert for a total order: keep the minimum. -/
def Frontier.insert (f : Frontier) (t : U64) : Frontier :=
  match f with
  | none => some t
  | some u => some (min u t)

/-- Antichain::from(vec): insert every element. -/
def frontierFrom (l : List U64) : Frontier :=
  l.foldl Frontier.insert none

/-- PartialOrder::less_equal on antichains (timely): every element of the
right antichain dominates some element of the left one. -/
def Frontier.less_equal (a b : Frontier) : Bool :=
  b.elements.all fun t2 => a.elements.any fun t1 => t1 ≤ t2

/-- PartialOrder::less_than on antichains: less-or-equal and not equal. -/
def Frontier.less_than (a b : Frontier) : Bool :=
  a.less_equal b && decide (a ≠ b)

/-- Antichain::from_elem. -/
def frontierFromElem (t : U64) : Frontier := some t

/-- Rust `Debug` rendering of an `Antichain<u64>`, used in the trace
rehydration error message. -/
def Frontier.debugString (f : Frontier) : String :=
  String.mk
    ("Antichain \x7b elements: [".toList ++
      (match f with
       | none => []
       | some t => toDecimal t.val) ++ "] \x7d".toList)

/-- Wire form of an antichain (`ProtoU64Antichain`): signed-64
reinterpretations of the elements. -/
structure ProtoU64Antichain where
  elements : List Int
deriving DecidableEq

/-- RustType::into_proto for Antichain<u64>: each element's 8 little-endian
bytes reinterpreted as a signed 64-bit integer. -/
def Frontier.into_proto (f : Frontier) : ProtoU64Antichain :=
  ⟨f.elements.map u64EncodeI64⟩

/-- RustType::from_proto for Antichain<u64>: decode each element and
re-form the antichain. Never fails (the source returns `Ok`
unconditionally). -/
def Frontier.from_proto (p : ProtoU64Antichain) : Except TryFromProtoError Frontier :=
  .ok (frontierFrom (p.elements.map u64DecodeI64))

/-! Batch descriptions and hollow batches. -/

/-- Description: the (lower, upper, since) triple bounding a batch. -/
structure Description where
  lower : Frontier
  upper : Frontier
  since : Frontier
deriving DecidableEq

/-- Wire form of a description (`ProtoU64Description`). -/
structure ProtoU64Description where
  lower : Option ProtoU64Antichain
  upper : Option ProtoU64Antichain
  since : Option ProtoU64Antichain
deriving DecidableEq

/-- RustType::into_proto for Description. -/
def Description.into_proto (d : Description) : ProtoU64Description :=
  ⟨some d.lower.into_proto, some d.upper.into_proto, some d.since.into_proto⟩

/-- RustType::from_proto for Description. -/
def Description.from_proto (p : ProtoU64Description) : Except TryFromProtoError Description := do
  let lower ← intoRustIfSome Frontier.from_proto "lower" p.lower
  let upper ← intoRustIfSome Frontier.from_proto "upper" p.upper
  let since ← intoRustIfSome Frontier.from_proto "since" p.since
  pure ⟨lower, upper, since⟩

/-- HollowBatchPart: a blob key (`PartialBatchKey`, a plain printable
string) plus its encoded size. -/
structure HollowBatchPart where
  key : String
  encoded_size_bytes : Nat
deriving DecidableEq

/-- Wire form of a part (`ProtoHollowBatchPart`). -/
structure ProtoHollowBatchPart where
  key : String
  encoded_size_bytes : Nat
deriving DecidableEq

/-- RustType::into_proto for HollowBatchPart. -/
def HollowBatchPart.into_proto (p : HollowBatchPart) : ProtoHollowBatchPart :=
  ⟨p.key, p.encoded_size_bytes⟩

/-- RustType::from_proto for HollowBatchPart (the source returns `Ok`
unconditionally, so the conversion is total here). -/
def HollowBatchPart.from_proto (p : ProtoHollowBatchPart) : HollowBatchPart :=
  ⟨p.key, p.encoded_size_bytes⟩

/-- HollowBatch: description, ordered part references, row count, run
boundaries. -/
structure HollowBatch where
  desc : Description
  parts : List HollowBatchPart
  len : Nat
  runs : List Nat
deriving DecidableEq

/-- Wire form of a hollow batch, including the legacy `deprecated_keys`
field. -/
structure ProtoHollowBatch where
  desc : Option ProtoU64Description
  parts : List ProtoHollowBatchPart
  len : Nat
  runs : List Nat
  deprecated_keys : List String
deriving DecidableEq

/-- RustType::into_proto for HollowBatch: `deprecated_keys` is always
written empty. -/
def HollowBatch.into_proto (b : HollowBatch) : ProtoHollowBatch :=
  ⟨some b.desc.into_proto, b.parts.map HollowBatchPart.into_proto, b.len, b.runs, []⟩

/-- RustType::from_proto for HollowBatch. MIGRATION: every legacy key in
`deprecated_keys` becomes one part with `encoded_size_bytes = 0`, appended
after the structured parts. -/
def HollowBatch.from_proto (p : ProtoHollowBatch) : Except TryFromProtoError HollowBatch := do
  let parts := p.parts.map HollowBatchPart.from_proto ++
    p.deprecated_keys.map fun key => HollowBatchPart.mk key 0
  let desc ← intoRustIfSome Description.from_proto "desc" p.desc
  pure ⟨desc, parts, p.len, p.runs⟩

/-! Handle debug state and the three lease/reader/writer state records. -/

/-- HandleDebugState: hostname and purpose of a handle. -/
structure HandleDebugState where
  hostname : String
  purpose : String
deriving DecidableEq

/-- Default (empty) debug state, used by the absent-field migration. -/
def HandleDebugState.default : HandleDebugState := ⟨"", ""⟩

/-- Wire form of the debug state. -/
structure ProtoHandleDebugState where
  hostname : String
  purpose : String
deriving DecidableEq

/-- RustType::into_proto for HandleDebugState. -/
def HandleDebugState.into_proto (d : HandleDebugState) : ProtoHandleDebugState :=
  ⟨d.hostname, d.purpose⟩

/-- RustType::from_proto for HandleDebugState (total in the source). -/
def HandleDebugState.from_proto (p : ProtoHandleDebugState) : HandleDebugState :=
  ⟨p.hostname, p.purpose⟩

/-- Default (all-zero-field) wire debug state (`unwrap_or_default`). -/
def ProtoHandleDebugState.default : ProtoHandleDebugState := ⟨"", ""⟩

/-- Modelled from the spec: `PersistConfig::DEFAULT_READ_LEASE_DURATION`
(defined outside src/) is the platform default read-lease duration; 15
minutes, in milliseconds. The claims depend only on it being a fixed
nonzero constant. -/
def DEFAULT_READ_LEASE_DURATION_MS : Nat := 900000

/-- LeasedReaderState. -/
structure LeasedReaderState where
  seqno : Nat
  since : Frontier
  last_heartbeat_timestamp_ms : Nat
  lease_duration_ms : Nat
  debug : HandleDebugState
deriving DecidableEq

/-- Wire form of a leased reader state. -/
structure ProtoLeasedReaderState where
  seqno : Nat
  since : Option ProtoU64Antichain
  last_heartbeat_timestamp_ms : Nat
  lease_duration_ms : Nat
  debug : Option ProtoHandleDebugState
deriving DecidableEq

/-- RustType::into_proto for LeasedReaderState. -/
def LeasedReaderState.into_proto (r : LeasedReaderState) : ProtoLeasedReaderState :=
  ⟨r.seqno, some r.since.into_proto, r.last_heartbeat_timestamp_ms, r.lease_duration_ms,
    some r.debug.into_proto⟩

/-- RustType::from_proto for LeasedReaderState. MIGRATION: a zero (absent)
`lease_duration_ms` becomes the platform default; an absent `debug`
becomes the empty default. -/
def LeasedReaderState.from_proto (p : ProtoLeasedReaderState) :
    Except TryFromProtoError LeasedReaderState := do
  let lease_duration_ms :=
    if p.lease_duration_ms = 0 then DEFAULT_READ_LEASE_DURATION_MS else p.lease_duration_ms
  let debug := HandleDebugState.from_proto (p.debug.getD ProtoHandleDebugState.default)
  let since ← intoRustIfSome Frontier.from_proto "ProtoLeasedReaderState::since" p.since
  pure ⟨p.seqno, since, p.last_heartbeat_timestamp_ms, lease_duration_ms, debug⟩

/-- OpaqueState: the caller-defined 8-byte fencing token (`[u8; 8]`),
represented by the `u64` its little-endian bytes denote. -/
structure OpaqueState where
  v : U64
deriving DecidableEq

/-- CriticalReaderState. The `opaque8` field models the source field
`opaque`. -/
structure CriticalReaderState where
  since : Frontier
  opaque8 : OpaqueState
  opaque_codec : String
  debug : HandleDebugState
deriving DecidableEq

/-- Wire form of a critical reader state; the fencing token travels as a
signed 64-bit reinterpretation of its bytes. -/
structure ProtoCriticalReaderState where
  since : Option ProtoU64Antichain
  opaque8 : Int
  opaque_codec : String
  debug : Option ProtoHandleDebugState
deriving DecidableEq

/-- RustType::into_proto for CriticalReaderState:
`i64::from_le_bytes(self.opaque.0)`. -/
def CriticalReaderState.into_proto (r : CriticalReaderState) : ProtoCriticalReaderState :=
  ⟨some r.since.into_proto, i64FromLeBytes (natLeBytes 8 r.opaque8.v.val), r.opaque_codec,
    some r.debug.into_proto⟩

/-- RustType::from_proto for CriticalReaderState:
`OpaqueState(i64::to_le_bytes(proto.opaque))`; absent `debug` defaults. -/
def CriticalReaderState.from_proto (p : ProtoCriticalReaderState) :
    Except TryFromProtoError CriticalReaderState := do
  let debug := HandleDebugState.from_proto (p.debug.getD ProtoHandleDebugState.default)
  let since ← intoRustIfSome Frontier.from_proto "ProtoCriticalReaderState::since" p.since
  pure ⟨since, ⟨u64DecodeI64 p.opaque8⟩, p.opaque_codec, debug⟩

/-- WriterState. -/
structure WriterState where
  last_heartbeat_timestamp_ms : Nat
  lease_duration_ms : Nat
  most_recent_write_token : IdempotencyToken
  most_recent_write_upper : Frontier
  debug : HandleDebugState
deriving DecidableEq

/-- Wire form of a writer state. -/
structure ProtoWriterState where
  last_heartbeat_timestamp_ms : Nat
  lease_duration_ms : Nat
  most_recent_write_token : String
  most_recent_write_upper : Option ProtoU64Antichain
  debug : Option ProtoHandleDebugState
deriving DecidableEq

/-- RustType::into_proto for WriterState. -/
def WriterState.into_proto (w : WriterState) : ProtoWriterState :=
  ⟨w.last_heartbeat_timestamp_ms, w.lease_duration_ms, w.most_recent_write_token.toString,
    some w.most_recent_write_upper.into_proto, some w.debug.into_proto⟩

/-- RustType::from_proto for WriterState. MIGRATION: an empty write token
becomes the sentinel; an absent write upper becomes the antichain holding
`T::minimum()`; an absent `debug` defaults. -/
def WriterState.from_proto (p : ProtoWriterState) : Except TryFromProtoError WriterState := do
  let most_recent_write_token ←
    if p.most_recent_write_token = "" then .ok IdempotencyToken.SENTINEL
    else IdempotencyToken.from_proto p.most_recent_write_token
  let most_recent_write_upper ←
    match p.most_recent_write_upper with
    | some x => Frontier.from_proto x
    | none => .ok (frontierFromElem u64Minimum)
  let debug := HandleDebugState.from_proto (p.debug.getD ProtoHandleDebugState.default)
  pure ⟨p.last_heartbeat_timestamp_ms, p.lease_duration_ms, most_recent_write_token,
    most_recent_write_upper, debug⟩

/-! Trace. The spine's physical layout is not prescribed by the spec; the
trace is its compaction frontier plus the batches in order. -/

/-- Modelled from the spec: `Trace<T>` (trace.rs, not under src/) is the
ordered log of hollow batches plus its own since frontier. -/
structure Trace where
  since : Frontier
  batches : List HollowBatch
deriving DecidableEq

/-- Modelled from the spec: `Trace::default()` starts empty with its since
at the minimum antichain. -/
def Trace.default : Trace := ⟨frontierFromElem u64Minimum, []⟩

/-- Modelled from the spec: `Trace::downgrade_since` replaces the since
frontier. -/
def Trace.downgrade_since (t : Trace) (s : Frontier) : Trace :=
  { t with since := s }

/-- Modelled from the spec: `Trace::push_batch` appends the batch; the
merge requests it would return are discarded by the rehydration caller. -/
def Trace.push_batch (t : Trace) (b : HollowBatch) : Trace :=
  { t with batches := t.batches ++ [b] }

/-- Wire form of a trace: `(since, ordered batches)`. -/
structure ProtoTrace where
  since : Option ProtoU64Antichain
  spine : List ProtoHollowBatch
deriving DecidableEq

/-- RustType::into_proto for Trace: since plus the batches in order
(`map_batches` pushes them in order). -/
def Trace.into_proto (t : Trace) : ProtoTrace :=
  ⟨some t.since.into_proto, t.batches.map HollowBatch.into_proto⟩

/-- Error message of the since-monotonicity rejection, with both frontiers
Debug-rendered as in the source format string. -/
def traceSinceErrorMsg (traceSince batchSince : Frontier) : String :=
  "invalid ProtoTrace: the spine\x27s since " ++ traceSince.debugString ++
    " was less than a batch\x27s since " ++ batchSince.debugString

/-- Rehydration loop of `Trace::from_proto`: decode each wire batch in
order; reject the rollup if the trace's since is strictly less than the
batch's since, otherwise push the batch. -/
def tracePushLoop (t : Trace) : List ProtoHollowBatch → Except TryFromProtoError Trace
  | [] => .ok t
  | pb :: rest => do
    let batch ← HollowBatch.from_proto pb
    if Frontier.less_than t.since batch.desc.since then
      .error (.invalidPersistState (traceSinceErrorMsg t.since batch.desc.since))
    else
      tracePushLoop (t.push_batch batch) rest

/-- RustType::from_proto for Trace: start from the default trace,
downgrade its since to the rollup's, then run the rehydration loop. (The
progress logging every 1000 batches has no observable effect and is
dropped.) -/
def Trace.from_proto (p : ProtoTrace) : Except TryFromProtoError Trace := do
  let s ← intoRustIfSome Frontier.from_proto "since" p.since
  tracePushLoop (Trace.default.downgrade_since s) p.spine

/-! Association-list maps. A `BTreeMap<K, V>` is modeled as its list of
key-value pairs in iteration order; well-formed maps have no duplicate
keys (stated where a claim needs it). -/

/-- Association list standing for a `BTreeMap`. -/
abbrev AList (K V : Type) := List (K × V)

/-- BTreeMap::insert: replace the value at an existing key, otherwise
append the binding. -/
def alistInsert {K V : Type} [DecidableEq K] (m : AList K V) (k : K) (v : V) : AList K V :=
  match m with
  | [] => [(k, v)]
  | (k2, v2) :: rest => if k2 = k then (k, v) :: rest else (k2, v2) :: alistInsert rest k v

/-- BTreeMap::remove: drop the binding at a key. -/
def alistRemove {K V : Type} [DecidableEq K] (m : AList K V) (k : K) : AList K V :=
  match m with
  | [] => []
  | (k2, v2) :: rest => if k2 = k then rest else (k2, v2) :: alistRemove rest k

/-- Keys of an association list. -/
def alistKeys {K V : Type} (m : AList K V) : List K := m.map Prod.fst

/-- Decode loop of a proto map field: `for (k, v) in field { m.insert(k.into_rust()?, v.into_rust()?); }`. -/
def alistFromProto {KP VP K V : Type} [DecidableEq K]
    (decK : KP → Except TryFromProtoError K) (decV : VP → Except TryFromProtoError V)
    (l : List (KP × VP)) : Except TryFromProtoError (AList K V) :=
  l.foldlM
    (fun m kv => do
      let k ← decK kv.1
      let v ← decV kv.2
      pure (alistInsert m k v))
    []

/-! State and its wire form. -/

/-- StateCollections: the field collections of a shard's state. -/
structure StateCollections where
  rollups : AList Nat String
  last_gc_req : Nat
  leased_readers : AList LeasedReaderId LeasedReaderState
  critical_readers : AList CriticalReaderId CriticalReaderState
  writers : AList WriterId WriterState
  trace : Trace
deriving DecidableEq

/-- State: the authoritative per-shard record (`State<T>` at `T = u64`). -/
structure State where
  applier_version : Version
  shard_id : ShardId
  seqno : Nat
  walltime_ms : Nat
  hostname : String
  collections : StateCollections
deriving DecidableEq

/-- Wire form of a full state rollup (`ProtoStateRollup`). -/
structure ProtoStateRollup where
  applier_version : String
  shard_id : String
  seqno : Nat
  walltime_ms : Nat
  hostname : String
  key_codec : String
  val_codec : String
  ts_codec : String
  diff_codec : String
  last_gc_req : Nat
  rollups : List (Nat × String)
  leased_readers : List (String × ProtoLeasedReaderState)
  critical_readers : List (String × ProtoCriticalReaderState)
  writers : List (String × ProtoWriterState)
  trace : Option ProtoTrace
deriving DecidableEq

/-- State::into_proto: serialize the state, with the key/val/diff codec
names supplied by the caller and the timestamp codec fixed by `T = u64`. -/
def State.into_proto (s : State) (key_codec val_codec diff_codec : String) : ProtoStateRollup :=
  { applier_version := s.applier_version.toString
    shard_id := s.shard_id.toString
    seqno := s.seqno
    walltime_ms := s.walltime_ms
    hostname := s.hostname
    key_codec := key_codec
    val_codec := val_codec
    ts_codec := u64CodecName
    diff_codec := diff_codec
    last_gc_req := s.collections.last_gc_req
    rollups := s.collections.rollups
    leased_readers := s.collections.leased_readers.map fun kv =>
      (kv.1.toString, kv.2.into_proto)
    critical_readers := s.collections.critical_readers.map fun kv =>
      (kv.1.toString, kv.2.into_proto)
    writers := s.collections.writers.map fun kv => (kv.1.toString, kv.2.into_proto)
    trace := some s.collections.trace.into_proto }

/-- Decode of an `applier_version` string: empty means an infinitely old
version (`0.0.0`), anything else must parse as semver. -/
def applierVersionFromProto (s : String) : Except TryFromProtoError Version :=
  if s = "" then .ok ⟨0, 0, 0⟩
  else
    match Version.parse s with
    | some v => .ok v
    | none => .error (.invalidSemverVersion ("invalid applier_version " ++ s ++ ": parse error"))

/-- UntypedState: a decoded rollup whose timestamp type is not yet
validated, carrying the four stored codec names. -/
structure UntypedState where
  key_codec : String
  val_codec : String
  ts_codec : String
  diff_codec : String
  state : State
deriving DecidableEq

/-- RustType::from_proto for UntypedState, mirroring the source's order of
fallible steps: applier version, the four maps, the trace, then the shard
id inside the `State` literal. -/
def UntypedState.from_proto (x : ProtoStateRollup) : Except TryFromProtoError UntypedState := do
  let applier_version ← applierVersionFromProto x.applier_version
  let rollups ← alistFromProto (fun (k : Nat) => .ok k) (fun (v : String) => .ok v) x.rollups
  let leased_readers ←
    alistFromProto LeasedReaderId.from_proto LeasedReaderState.from_proto x.leased_readers
  let critical_readers ←
    alistFromProto CriticalReaderId.from_proto CriticalReaderState.from_proto x.critical_readers
  let writers ← alistFromProto WriterId.from_proto WriterState.from_proto x.writers
  let trace ← intoRustIfSome Trace.from_proto "trace" x.trace
  let shard_id ← ShardId.from_proto x.shard_id
  pure
    { key_codec := x.key_codec
      val_codec := x.val_codec
      ts_codec := x.ts_codec
      diff_codec := x.diff_codec
      state :=
        { applier_version := applier_version
          shard_id := shard_id
          seqno := x.seqno
          walltime_ms := x.walltime_ms
          hostname := x.hostname
          collections :=
            { rollups := rollups
              last_gc_req := x.last_gc_req
              leased_readers := leased_readers
              critical_readers := critical_readers
              writers := writers
              trace := trace } } }

/-- TypedState: a state whose codecs have been validated (the phantom
codec type parameters carry no data and are dropped). -/
structure TypedState where
  state : State
deriving DecidableEq

/-- TypedState::encode / State::into_proto followed by protobuf framing;
the byte buffer is modeled as the framed message itself. The key/val/diff
codec-name arguments stand for `K::codec_name()`, `V::codec_name()` and
`D::codec_name()` of the phantom types. -/
def TypedState.encode (key_codec val_codec diff_codec : String) (t : TypedState) :
    Option ProtoStateRollup :=
  some (t.state.into_proto key_codec val_codec diff_codec)

/-- Abnormal terminations of a decode: the `expect` panic on an invalid
buffer, or the version-gate `halt!`. -/
inductive DecodeAbort where
  | invalidState (msg : String)
  | halt (msg : String)
deriving DecidableEq

/-- Source `check_applier_version`: if the running build is older than the
version that wrote the state, halt with a diagnostic naming both; the
returned option carries the halt message. -/
def check_applier_version (build applier : Version) : Option String :=
  if Version.lt build applier then
    some (build.toString ++ " received persist state from the future " ++ applier.toString)
  else none

/-- UntypedState::decode: protobuf-decode the buffer (`none` models an
undecodable byte buffer), convert, then run the applier-version gate. Both
`expect` panics surface as `invalidState`. -/
def UntypedState.decode (build : Version) (buf : Option ProtoStateRollup) :
    Except DecodeAbort UntypedState :=
  match buf with
  | none => .error (.invalidState "internal error: invalid encoded state")
  | some p =>
    match UntypedState.from_proto p with
    | .error _ => .error (.invalidState "internal error: invalid encoded state")
    | .ok s =>
      match check_applier_version build s.state.applier_version with
      | some msg => .error (.halt msg)
      | none => .ok s

/-- CodecMismatch: requested and actual codec-name tuples. The fifth tuple
component models the source's always-`None` concrete-type slot. -/
structure CodecMismatch where
  requested : String × String × String × String × Option Unit
  actual : String × String × String × String × Option Unit
deriving DecidableEq

/-- Timestamp-only codec mismatch. -/
structure CodecMismatchT where
  requested : String
  actual : String
deriving DecidableEq

/-- UntypedState::check_codecs at `T = u64`: assert the stored shard id
(outer `Except String` models the `assert_eq!` panic), then compare the
four codec names; the key/val/diff names requested by the caller stand for
the codec names of `K`, `V`, `D`. -/
def UntypedState.check_codecs (kName vName dName : String) (shard_id : ShardId)
    (u : UntypedState) : Except String (Except CodecMismatch TypedState) :=
  if shard_id ≠ u.state.shard_id then
    .error "assertion failed: shard_id mismatch"
  else if kName ≠ u.key_codec ∨ vName ≠ u.val_codec ∨ u64CodecName ≠ u.ts_codec ∨
      dName ≠ u.diff_codec then
    .ok (.error
      { requested := (kName, vName, u64CodecName, dName, none)
        actual := (u.key_codec, u.val_codec, u.ts_codec, u.diff_codec, none) })
  else .ok (.ok ⟨u.state⟩)

/-- UntypedState::check_ts_codec at `T = u64`. -/
def UntypedState.check_ts_codec (shard_id : ShardId) (u : UntypedState) :
    Except String (Except CodecMismatchT State) :=
  if shard_id ≠ u.state.shard_id then
    .error "assertion failed: shard_id mismatch"
  else if u64CodecName ≠ u.ts_codec then
    .ok (.error { requested := u64CodecName, actual := u.ts_codec })
  else .ok (.ok u.state)

/-! State diffs and the parallel-array field-diff codec. -/

/-- StateFieldValDiff: one insert, update or delete of a field value. -/
inductive StateFieldValDiff (α : Type) where
  | Insert (toV : α)
  | Update (fromV : α) (toV : α)
  | Delete (fromV : α)
deriving DecidableEq

/-- StateFieldDiff: a keyed value delta. -/
structure StateFieldDiff (K V : Type) where
  key : K
  val : StateFieldValDiff V
deriving DecidableEq

/-- StateDiff: a compact delta between two sequence numbers, one ordered
delta list per field of the state. -/
structure StateDiff where
  applier_version : Version
  seqno_from : Nat
  seqno_to : Nat
  walltime_ms : Nat
  latest_rollup_key : String
  rollups : List (StateFieldDiff Nat String)
  hostname : List (StateFieldDiff Unit String)
  last_gc_req : List (StateFieldDiff Unit Nat)
  leased_readers : List (StateFieldDiff LeasedReaderId LeasedReaderState)
  critical_readers : List (StateFieldDiff CriticalReaderId CriticalReaderState)
  writers : List (StateFieldDiff WriterId WriterState)
  since : List (StateFieldDiff Unit Frontier)
  spine : List (StateFieldDiff HollowBatch Unit)
deriving DecidableEq

/-- Modelled from the spec: `StateDiff::new` (state_diff.rs, not under
src/) builds a diff with the given header fields and no field deltas. -/
def StateDiff.new (applier_version : Version) (seqno_from seqno_to walltime_ms : Nat)
    (latest_rollup_key : String) : StateDiff :=
  ⟨applier_version, seqno_from, seqno_to, walltime_ms, latest_rollup_key,
    [], [], [], [], [], [], [], []⟩

/-- Field tags of the parallel-array layout, in the canonical field order.
-/
inductive ProtoStateField where
  | Hostname
  | LastGcReq
  | Rollups
  | LeasedReaders
  | CriticalReaders
  | Writers
  | Since
  | Spine
deriving DecidableEq

/-- Modelled from the spec: the wire tag (`i32::from(field)`) of each
field, numbered in the canonical order. -/
def ProtoStateField.tag : ProtoStateField → Nat
  | .Hostname => 0
  | .LastGcReq => 1
  | .Rollups => 2
  | .LeasedReaders => 3
  | .CriticalReaders => 4
  | .Writers => 5
  | .Since => 6
  | .Spine => 7

/-- Inverse of `ProtoStateField.tag` (the generated enum's `try_from`). -/
def ProtoStateField.ofTag : Nat → Option ProtoStateField
  | 0 => some .Hostname
  | 1 => some .LastGcReq
  | 2 => some .Rollups
  | 3 => some .LeasedReaders
  | 4 => some .CriticalReaders
  | 5 => some .Writers
  | 6 => some .Since
  | 7 => some .Spine
  | _ => none

/-- Diff-type tags of the parallel-array layout. -/
inductive ProtoStateFieldDiffType where
  | Insert
  | Update
  | Delete
deriving DecidableEq

/-- Modelled from the spec: the wire tag of each diff type. -/
def ProtoStateFieldDiffType.tag : ProtoStateFieldDiffType → Nat
  | .Insert => 0
  | .Update => 1
  | .Delete => 2

/-- Inverse of `ProtoStateFieldDiffType.tag`. -/
def ProtoStateFieldDiffType.ofTag : Nat → Option ProtoStateFieldDiffType
  | 0 => some .Insert
  | 1 => some .Update
  | 2 => some .Delete
  | _ => none

/-- One length-prefixed data chunk of the parallel-array layout. A chunk
holds the `encode_to_vec` bytes of a nested message; it is modeled as a
sum over the message types that occur, and decoding a chunk at a different
message type than it was written with is modeled as a decode failure. -/
inductive ProtoVal where
  | unitV
  | u64V (n : Nat)
  | strV (s : String)
  | leasedV (p : ProtoLeasedReaderState)
  | criticalV (p : ProtoCriticalReaderState)
  | writerV (p : ProtoWriterState)
  | antichainV (p : ProtoU64Antichain)
  | batchV (p : ProtoHollowBatch)
deriving DecidableEq

/-- ProtoStateFieldDiffs: the parallel arrays (field tags, diff-type tags)
plus the concatenated data stream of chunks. -/
structure ProtoStateFieldDiffs where
  fields : List Nat
  diff_types : List Nat
  data : List ProtoVal
deriving DecidableEq

/-- Source `field_diff_into_proto`: push the field tag, the key chunk, the
diff-type tag, then one value chunk (Insert/Delete) or two (Update). -/
def field_diff_into_proto {K V : Type} (field : ProtoStateField) (d : StateFieldDiff K V)
    (p : ProtoStateFieldDiffs) (k_fn : K → ProtoVal) (v_fn : V → ProtoVal) :
    ProtoStateFieldDiffs :=
  let p1 : ProtoStateFieldDiffs :=
    { p with fields := p.fields ++ [field.tag], data := p.data ++ [k_fn d.key] }
  match d.val with
  | .Insert toV =>
    { p1 with
      diff_types := p1.diff_types ++ [ProtoStateFieldDiffType.Insert.tag]
      data := p1.data ++ [v_fn toV] }
  | .Update fromV toV =>
    { p1 with
      diff_types := p1.diff_types ++ [ProtoStateFieldDiffType.Update.tag]
      data := p1.data ++ [v_fn fromV, v_fn toV] }
  | .Delete fromV =>
    { p1 with
      diff_types := p1.diff_types ++ [ProtoStateFieldDiffType.Delete.tag]
      data := p1.data ++ [v_fn fromV] }

/-- Source `field_diffs_into_proto`: encode every delta of one field in
order. -/
def field_diffs_into_proto {K V : Type} (field : ProtoStateField)
    (diffs : List (StateFieldDiff K V)) (p : ProtoStateFieldDiffs) (k_fn : K → ProtoVal)
    (v_fn : V → ProtoVal) : ProtoStateFieldDiffs :=
  diffs.foldl (fun p d => field_diff_into_proto field d p k_fn v_fn) p

/-- Wire form of a state diff (`ProtoStateDiff`). -/
structure ProtoStateDiff where
  applier_version : String
  seqno_from : Nat
  seqno_to : Nat
  walltime_ms : Nat
  latest_rollup_key : String
  field_diffs : Option ProtoStateFieldDiffs
deriving DecidableEq

/-- RustType::into_proto for StateDiff: encode the eight field groups in
the canonical order into one parallel-array record. The per-field key and
value encoders mirror the closures passed in the source. -/
def StateDiff.into_proto (d : StateDiff) : ProtoStateDiff :=
  let fd0 : ProtoStateFieldDiffs := ⟨[], [], []⟩
  let fd1 := field_diffs_into_proto .Hostname d.hostname fd0
    (fun _ => .unitV) (fun v => .strV v)
  let fd2 := field_diffs_into_proto .LastGcReq d.last_gc_req fd1
    (fun _ => .unitV) (fun v => .u64V v)
  let fd3 := field_diffs_into_proto .Rollups d.rollups fd2
    (fun k => .u64V k) (fun v => .strV v)
  let fd4 := field_diffs_into_proto .LeasedReaders d.leased_readers fd3
    (fun k => .strV k.toString) (fun v => .leasedV v.into_proto)
  let fd5 := field_diffs_into_proto .CriticalReaders d.critical_readers fd4
    (fun k => .strV k.toString) (fun v => .criticalV v.into_proto)
  let fd6 := field_diffs_into_proto .Writers d.writers fd5
    (fun k => .strV k.toString) (fun v => .writerV v.into_proto)
  let fd7 := field_diffs_into_proto .Since d.since fd6
    (fun _ => .unitV) (fun v => .antichainV v.into_proto)
  let fd8 := field_diffs_into_proto .Spine d.spine fd7
    (fun k => .batchV k.into_proto) (fun _ => .unitV)
  { applier_version := d.applier_version.toString
    seqno_from := d.seqno_from
    seqno_to := d.seqno_to
    walltime_ms := d.walltime_ms
    latest_rollup_key := d.latest_rollup_key
    field_diffs := some fd8 }

/-- One entry yielded by the decoder's scan (`ProtoStateFieldDiff`): key
chunk, diff type and the from/to value chunks (an unused slot holds the
empty chunk). `fromV`/`toV` model the source fields `from`/`to`. -/
structure ProtoStateFieldDiffR where
  key : ProtoVal
  diff_type : ProtoStateFieldDiffType
  fromV : ProtoVal
  toV : ProtoVal
deriving DecidableEq

/-- Wire diff-type tag a value diff is encoded with. -/
def StateFieldValDiff.wireTag {α : Type} : StateFieldValDiff α → Nat
  | .Insert _ => ProtoStateFieldDiffType.Insert.tag
  | .Update _ _ => ProtoStateFieldDiffType.Update.tag
  | .Delete _ => ProtoStateFieldDiffType.Delete.tag

/-- Value chunks a value diff pushes onto the data stream, in order. -/
def StateFieldValDiff.chunks {V : Type} (v_fn : V → ProtoVal) :
    StateFieldValDiff V → List ProtoVal
  | .Insert toV => [v_fn toV]
  | .Update fromV toV => [v_fn fromV, v_fn toV]
  | .Delete fromV => [v_fn fromV]

/-- The scanned record one encoded delta is read back as. -/
def fieldDiffRecord {K V : Type} (d : StateFieldDiff K V) (k_fn : K → ProtoVal)
    (v_fn : V → ProtoVal) : ProtoStateFieldDiffR :=
  match d.val with
  | .Insert toV => ⟨k_fn d.key, .Insert, .unitV, v_fn toV⟩
  | .Update fromV toV => ⟨k_fn d.key, .Update, v_fn fromV, v_fn toV⟩
  | .Delete fromV => ⟨k_fn d.key, .Delete, v_fn fromV, .unitV⟩

/-- Field-tag column one encoded group contributes. -/
def groupFields {K V : Type} (field : ProtoStateField) (g : List (StateFieldDiff K V)) :
    List Nat :=
  g.map fun _ => field.tag

/-- Diff-type column one encoded group contributes. -/
def groupDts {K V : Type} (g : List (StateFieldDiff K V)) : List Nat :=
  g.map fun d => d.val.wireTag

/-- Data chunks one encoded group contributes. -/
def groupData {K V : Type} (g : List (StateFieldDiff K V)) (k_fn : K → ProtoVal)
    (v_fn : V → ProtoVal) : List ProtoVal :=
  g.flatMap fun d => k_fn d.key :: d.val.chunks v_fn

/-- Modelled from the spec: `ProtoStateFieldDiffs::iter` (state.rs, not
under src/) scans `fields` and `diff_types` together, pulling one data
chunk for the key and one value chunk for Insert/Delete or two for
Update. -/
def protoFieldDiffsIter : List Nat → List Nat → List ProtoVal →
    Except TryFromProtoError (List (ProtoStateField × ProtoStateFieldDiffR))
  | [], _, _ => .ok []
  | _ :: _, [], _ => .ok []
  | f :: fs, dt :: dts, data => do
    let field ←
      match ProtoStateField.ofTag f with
      | some x => Except.ok x
      | none => Except.error (.invalidPersistState "unknown ProtoStateField")
    let dty ←
      match ProtoStateFieldDiffType.ofTag dt with
      | some x => Except.ok x
      | none => Except.error (.invalidPersistState "unknown ProtoStateFieldDiffType")
    match data with
    | [] => .error (.invalidPersistState "missing field diff data")
    | key :: data1 =>
      match dty with
      | .Insert =>
        match data1 with
        | [] => .error (.invalidPersistState "missing field diff data")
        | v :: data2 => do
          let rest ← protoFieldDiffsIter fs dts data2
          pure ((field, ⟨key, .Insert, .unitV, v⟩) :: rest)
      | .Update =>
        match data1 with
        | v1 :: v2 :: data2 => do
          let rest ← protoFieldDiffsIter fs dts data2
          pure ((field, ⟨key, .Update, v1, v2⟩) :: rest)
        | _ => .error (.invalidPersistState "missing field diff data")
      | .Delete =>
        match data1 with
        | [] => .error (.invalidPersistState "missing field diff data")
        | v :: data2 => do
          let rest ← protoFieldDiffsIter fs dts data2
          pure ((field, ⟨key, .Delete, v, .unitV⟩) :: rest)

/-- Source `field_diff_into_rust`: decode the value chunk(s) according to
the diff type, then the key chunk, and push the delta. The decoder
arguments combine the prost `decode` at the expected message type with the
source's `k_fn`/`v_fn` conversions. -/
def field_diff_into_rust {K V : Type} (proto : ProtoStateFieldDiffR)
    (diffs : List (StateFieldDiff K V)) (k_fn : ProtoVal → Except TryFromProtoError K)
    (v_fn : ProtoVal → Except TryFromProtoError V) :
    Except TryFromProtoError (List (StateFieldDiff K V)) := do
  let val ←
    match proto.diff_type with
    | .Insert => do
      let t ← v_fn proto.toV
      pure (StateFieldValDiff.Insert t)
    | .Update => do
      let f ← v_fn proto.fromV
      let t ← v_fn proto.toV
      pure (StateFieldValDiff.Update f t)
    | .Delete => do
      let f ← v_fn proto.fromV
      pure (StateFieldValDiff.Delete f)
  let key ← k_fn proto.key
  pure (diffs ++ [⟨key, val⟩])

/-- Chunk decode at the unit message type. -/
def expectUnit : ProtoVal → Except TryFromProtoError Unit
  | .unitV => .ok ()
  | _ => .error (.invalidPersistState "failed to decode chunk")

/-- Chunk decode at the u64 message type. -/
def expectU64 : ProtoVal → Except TryFromProtoError Nat
  | .u64V n => .ok n
  | _ => .error (.invalidPersistState "failed to decode chunk")

/-- Chunk decode at the string message type. -/
def expectStr : ProtoVal → Except TryFromProtoError String
  | .strV s => .ok s
  | _ => .error (.invalidPersistState "failed to decode chunk")

/-- Chunk decode at `ProtoLeasedReaderState`. -/
def expectLeased : ProtoVal → Except TryFromProtoError ProtoLeasedReaderState
  | .leasedV p => .ok p
  | _ => .error (.invalidPersistState "failed to decode chunk")

/-- Chunk decode at `ProtoCriticalReaderState`. -/
def expectCritical : ProtoVal → Except TryFromProtoError ProtoCriticalReaderState
  | .criticalV p => .ok p
  | _ => .error (.invalidPersistState "failed to decode chunk")

/-- Chunk decode at `ProtoWriterState`. -/
def expectWriter : ProtoVal → Except TryFromProtoError ProtoWriterState
  | .writerV p => .ok p
  | _ => .error (.invalidPersistState "failed to decode chunk")

/-- Chunk decode at `ProtoU64Antichain`. -/
def expectAntichain : ProtoVal → Except TryFromProtoError ProtoU64Antichain
  | .antichainV p => .ok p
  | _ => .error (.invalidPersistState "failed to decode chunk")

/-- Chunk decode at `ProtoHollowBatch`. -/
def expectBatch : ProtoVal → Except TryFromProtoError ProtoHollowBatch
  | .batchV p => .ok p
  | _ => .error (.invalidPersistState "failed to decode chunk")

/-- The per-field dispatch in `StateDiff::from_proto`'s loop body: route
one scanned entry to the matching field's delta list with that field's
key/value decoders. -/
def applyFieldDiffEntry (acc : StateDiff) (e : ProtoStateField × ProtoStateFieldDiffR) :
    Except TryFromProtoError StateDiff :=
  match e.1 with
  | .Hostname => do
    let l ← field_diff_into_rust e.2 acc.hostname expectUnit expectStr
    pure { acc with hostname := l }
  | .LastGcReq => do
    let l ← field_diff_into_rust e.2 acc.last_gc_req expectUnit expectU64
    pure { acc with last_gc_req := l }
  | .Rollups => do
    let l ← field_diff_into_rust e.2 acc.rollups expectU64 expectStr
    pure { acc with rollups := l }
  | .LeasedReaders => do
    let l ← field_diff_into_rust e.2 acc.leased_readers
      (fun pv => do
        let s ← expectStr pv
        LeasedReaderId.from_proto s)
      (fun pv => do
        let q ← expectLeased pv
        LeasedReaderState.from_proto q)
    pure { acc with leased_readers := l }
  | .CriticalReaders => do
    let l ← field_diff_into_rust e.2 acc.critical_readers
      (fun pv => do
        let s ← expectStr pv
        CriticalReaderId.from_proto s)
      (fun pv => do
        let q ← expectCritical pv
        CriticalReaderState.from_proto q)
    pure { acc with critical_readers := l }
  | .Writers => do
    let l ← field_diff_into_rust e.2 acc.writers
      (fun pv => do
        let s ← expectStr pv
        WriterId.from_proto s)
      (fun pv => do
        let q ← expectWriter pv
        WriterState.from_proto q)
    pure { acc with writers := l }
  | .Since => do
    let l ← field_diff_into_rust e.2 acc.since expectUnit
      (fun pv => do
        let q ← expectAntichain pv
        Frontier.from_proto q)
    pure { acc with since := l }
  | .Spine => do
    let l ← field_diff_into_rust e.2 acc.spine
      (fun pv => do
        let q ← expectBatch pv
        HollowBatch.from_proto q)
      expectUnit
    pure { acc with spine := l }

/-- RustType::from_proto for StateDiff: parse the header, then scan the
parallel arrays and dispatch every entry. -/
def StateDiff.from_proto (p : ProtoStateDiff) : Except TryFromProtoError StateDiff := do
  let applier_version ← applierVersionFromProto p.applier_version
  let base := StateDiff.new applier_version p.seqno_from p.seqno_to p.walltime_ms
    p.latest_rollup_key
  match p.field_diffs with
  | none => pure base
  | some fd => do
    let entries ← protoFieldDiffsIter fd.fields fd.diff_types fd.data
    entries.foldlM applyFieldDiffEntry base

/-- StateDiff::encode: serialize then frame; the byte buffer is modeled as
the framed message itself. -/
def StateDiff.encode (d : StateDiff) : Option ProtoStateDiff :=
  some d.into_proto

/-- StateDiff::decode: protobuf-decode the buffer (`none` models an
undecodable byte buffer), convert, then run the applier-version gate. -/
def StateDiff.decode (build : Version) (buf : Option ProtoStateDiff) :
    Except DecodeAbort StateDiff :=
  match buf with
  | none => .error (.invalidState "internal error: invalid encoded state")
  | some p =>
    match StateDiff.from_proto p with
    | .error _ => .error (.invalidState "internal error: invalid encoded state")
    | .ok d =>
      match check_applier_version build d.applier_version with
      | some msg => .error (.halt msg)
      | none => .ok d

/-! Applying encoded diffs to an in-memory state. The body of
`State::apply_encoded_diffs` lives in state.rs / state_diff.rs, outside
src/, and is modeled from the spec. -/

/-- PersistConfig, reduced to the field the modeled code reads. -/
structure PersistConfig where
  build_version : Version
deriving DecidableEq

/-- VersionedData: a sequence number plus an encoded diff buffer (the byte
blob is modeled at message granularity like every other buffer). -/
structure VersionedData where
  seqno : Nat
  data : Option ProtoStateDiff
deriving DecidableEq

/-- Modelled from the spec: applying the scalar deltas of one field; an
update replaces the current value when its expected old value matches. -/
def applyScalarDiffs {α : Type} [DecidableEq α] (cur : α) (ds : List (StateFieldDiff Unit α)) :
    α :=
  ds.foldl
    (fun c d =>
      match d.val with
      | .Update fromV toV => if c = fromV then toV else c
      | _ => c)
    cur

/-- Modelled from the spec: applying the map deltas of one field. -/
def applyMapDiffs {K V : Type} [DecidableEq K] (m : AList K V) (ds : List (StateFieldDiff K V)) :
    AList K V :=
  ds.foldl
    (fun m d =>
      match d.val with
      | .Insert v => alistInsert m d.key v
      | .Update _ toV => alistInsert m d.key toV
      | .Delete _ => alistRemove m d.key)
    m

/-- Modelled from the spec: applying the spine set deltas (keys are hollow
batches, values unit; only Insert and Delete are meaningful). -/
def applySpineDiffs (bs : List HollowBatch) (ds : List (StateFieldDiff HollowBatch Unit)) :
    List HollowBatch :=
  ds.foldl
    (fun bs d =>
      match d.val with
      | .Insert _ => bs ++ [d.key]
      | .Update _ _ => bs
      | .Delete _ => bs.erase d.key)
    bs

/-- Modelled from the spec: applying one decoded diff to a state. A diff
whose `seqno_from` does not equal the current seqno must fail; failure is
modeled as leaving the state unchanged. -/
def State.apply_diff (s : State) (d : StateDiff) : State :=
  if d.seqno_from = s.seqno then
    { s with
      seqno := d.seqno_to
      walltime_ms := d.walltime_ms
      hostname := applyScalarDiffs s.hostname d.hostname
      collections :=
        { rollups := applyMapDiffs s.collections.rollups d.rollups
          last_gc_req := applyScalarDiffs s.collections.last_gc_req d.last_gc_req
          leased_readers := applyMapDiffs s.collections.leased_readers d.leased_readers
          critical_readers := applyMapDiffs s.collections.critical_readers d.critical_readers
          writers := applyMapDiffs s.collections.writers d.writers
          trace :=
            { since := applyScalarDiffs s.collections.trace.since d.since
              batches := applySpineDiffs s.collections.trace.batches d.spine } } }
  else s

/-- Modelled from the spec: `State::apply_encoded_diffs` (state.rs, not
under src/) decodes each buffer with the build version and applies the
diffs in order. -/
def State.apply_encoded_diffs (cfg : PersistConfig) (s : State) (diffs : List VersionedData) :
    State :=
  diffs.foldl
    (fun s vd =>
      match StateDiff.decode cfg.build_version vd.data with
      | .ok d => s.apply_diff d
      | .error _ => s)
    s

/-- UntypedState::apply_encoded_diffs (encoding.rs): a silent no-op unless
the stored timestamp codec matches `T::codec_name()`; otherwise the diffs
are applied to the inner state. (The metrics argument has no observable
effect and is dropped.) -/
def UntypedState.apply_encoded_diffs (cfg : PersistConfig) (u : UntypedState)
    (diffs : List VersionedData) : UntypedState :=
  if u64CodecName ≠ u.ts_codec then u
  else { u with state := u.state.apply_encoded_diffs cfg diffs }

instance {ε α : Type} [DecidableEq ε] [DecidableEq α] : DecidableEq (Except ε α) := fun x y =>
  match x, y with
  | .ok a, .ok b =>
    if h : a = b then isTrue (h ▸ rfl) else isFalse fun he => h (Except.ok.inj he)
  | .error a, .error b =>
    if h : a = b then isTrue (h ▸ rfl) else isFalse fun he => h (Except.error.inj he)
  | .ok _, .error _ => isFalse fun he => Except.noConfusion he
  | .error _, .ok _ => isFalse fun he => Except.noConfusion he

/-! Well-formedness. These predicates record invariants that hold of every
state a Rust process can materialize (map keys unique in a `BTreeMap`,
lease durations nonzero per the migration's contract, the trace's batch
sinces not ahead of the trace since). -/

/-- Predicate transformer over the values of a field value diff. -/
def ValDiffAll {α : Type} (p : α → Prop) : StateFieldValDiff α → Prop
  | .Insert toV => p toV
  | .Update fromV toV => p fromV ∧ p toV
  | .Delete fromV => p fromV

instance {α : Type} (p : α → Prop) [DecidablePred p] (d : StateFieldValDiff α) :
    Decidable (ValDiffAll p d) :=
  match d with
  | .Insert toV => inferInstanceAs (Decidable (p toV))
  | .Update fromV toV => inferInstanceAs (Decidable (p fromV ∧ p toV))
  | .Delete fromV => inferInstanceAs (Decidable (p fromV))

/-- Well-formed states: unique map keys, nonzero lease durations for
leased readers, and the trace since not strictly below any batch since. -/
def StateWF (s : State) : Prop :=
  (alistKeys s.collections.rollups).Nodup ∧
  (alistKeys s.collections.leased_readers).Nodup ∧
  (alistKeys s.collections.critical_readers).Nodup ∧
  (alistKeys s.collections.writers).Nodup ∧
  (∀ kv ∈ s.collections.leased_readers, kv.2.lease_duration_ms ≠ 0) ∧
  (∀ b ∈ s.collections.trace.batches,
    Frontier.less_than s.collections.trace.since b.desc.since = false)

instance (s : State) : Decidable (StateWF s) := by
  unfold StateWF
  infer_instance

/-- Well-formed state diffs: every leased-reader value carried by a delta
has a nonzero lease duration. -/
def StateDiffWF (d : StateDiff) : Prop :=
  ∀ fd ∈ d.leased_readers, ValDiffAll (fun v => v.lease_duration_ms ≠ 0) fd.val

instance (d : StateDiff) : Decidable (StateDiffWF d) := by
  unfold StateDiffWF
  infer_instance

/-! Concrete values used by counterexamples and witnesses. -/

/-- A batch with the given since, trivial otherwise. -/
def batchWithSince (t : U64) : HollowBatch :=
  ⟨⟨some 0, some 1, some t⟩, [], 0, []⟩

/-- Wire trace whose rollup since is 3 and whose one batch has since 5. -/
def protoTraceSince3Batch5 : ProtoTrace :=
  ⟨some (Frontier.into_proto (some 3)), [(batchWithSince 5).into_proto]⟩

/-- Wire trace whose rollup since is 5 and whose one batch has since 3. -/
def protoTraceSince5Batch3 : ProtoTrace :=
  ⟨some (Frontier.into_proto (some 5)), [(batchWithSince 3).into_proto]⟩

/-- The trace the second wire trace rehydrates to. -/
def traceSince5Batch3 : Trace := ⟨some 5, [batchWithSince 3]⟩

/-- Shard id with the all-zero uuid (`s00000000-0000-0000-0000-000000000000`). -/
def exampleShardId : ShardId := ⟨zeroUuid⟩

/-- Leased reader id with the all-zero uuid. -/
def exampleReaderId : LeasedReaderId := ⟨zeroUuid⟩

/-- A leased reader state whose wire form carries `lease_duration_ms = 0`. -/
def readerWithZeroLease : LeasedReaderState :=
  ⟨1, some 0, 3, 0, ⟨"host", "purpose"⟩⟩

/-- A state holding one leased reader with a zero lease duration. -/
def stateWithZeroLease : State :=
  { applier_version := ⟨2, 0, 0⟩
    shard_id := exampleShardId
    seqno := 0
    walltime_ms := 0
    hostname := ""
    collections :=
      { rollups := []
        last_gc_req := 0
        leased_readers := [(exampleReaderId, readerWithZeroLease)]
        critical_readers := []
        writers := []
        trace := ⟨some 0, []⟩ } }

/-- The same state after the decode migration replaced the zero lease
duration with the platform default. -/
def stateWithDefaultLease : State :=
  { stateWithZeroLease with
    collections :=
      { stateWithZeroLease.collections with
        leased_readers :=
          [(exampleReaderId,
            { readerWithZeroLease with lease_duration_ms := DEFAULT_READ_LEASE_DURATION_MS })] } }

/-- A minimal well-formed state with empty collections. -/
def exampleEmptyState : State :=
  { applier_version := ⟨2, 0, 0⟩
    shard_id := exampleShardId
    seqno := 0
    walltime_ms := 0
    hostname := ""
    collections :=
      { rollups := []
        last_gc_req := 0
        leased_readers := []
        critical_readers := []
        writers := []
        trace := ⟨some 0, []⟩ } }

/-- A minimal untyped state over the example empty state with the scenario
codecs. -/
def exampleUntypedState : UntypedState :=
  ⟨"()", "()", "u64", "i64", exampleEmptyState⟩

/-- A minimal state diff. -/
def exampleStateDiff : StateDiff :=
  StateDiff.new ⟨2, 0, 0⟩ 0 1 2 "rollup"

/-- A wire rollup that decodes into no valid state (its required `trace`
sub-message is absent). -/
def protoRollupMissingTrace : ProtoStateRollup :=
  { applier_version := "1.0.0"
    shard_id := "s00000000-0000-0000-0000-000000000000"
    seqno := 0
    walltime_ms := 0
    hostname := ""
    key_codec := "()"
    val_codec := "()"
    ts_codec := "u64"
    diff_codec := "i64"
    last_gc_req := 0
    rollups := []
    leased_readers := []
    critical_readers := []
    writers := []
    trace := none }

/-- A wire diff that fails conversion (unparseable applier version). -/
def protoDiffBadVersion : ProtoStateDiff :=
  { applier_version := "not-a-version"
    seqno_from := 0
    seqno_to := 1
    walltime_ms := 0
    latest_rollup_key := ""
    field_diffs := none }

/-- The hollow-batch wire record of the migration scenario: structured
parts `[("a", 5)]` plus legacy `deprecated_keys = ["b"]`. -/
def protoBatchAB : ProtoHollowBatch :=
  ⟨some (Description.into_proto ⟨some 1, some 2, some 3⟩), [⟨"a", 5⟩], 4, [], ["b"]⟩

/-- The batch that record must decode to: parts `[("a", 5), ("b", 0)]` in
that order. -/
def batchABDecoded : HollowBatch :=
  ⟨⟨some 1, some 2, some 3⟩, [⟨"a", 5⟩, ⟨"b", 0⟩], 4, []⟩

/-! Byte-level codec lemmas. -/

/-- Bind of a successful `Except` computation reduces. -/
theorem exceptBindOk {ε α β : Type} (a : α) (f : α → Except ε β) :
    (Except.ok a : Except ε α) >>= f = f a := rfl

/-- Bind of a failed `Except` computation short-circuits. -/
theorem exceptBindErr {ε α β : Type} (e : ε) (f : α → Except ε β) :
    (Except.error e : Except ε α) >>= f = .error e := rfl

/-- Reassembling the little-endian digits of a value below the width bound
recovers the value. -/
theorem natFromLeBytes_natLeBytes {k n : Nat} (h : n < 256 ^ k) :
    natFromLeBytes (natLeBytes k n) = n := by
  induction k generalizing n with
  | zero =>
    simp only [natLeBytes, natFromLeBytes]
    simp only [pow_zero] at h
    omega
  | succ k ih =>
    have hd : n / 256 < 256 ^ k := by
      rw [Nat.div_lt_iff_lt_mul (by norm_num)]
      calc n < 256 ^ (k + 1) := h
        _ = 256 ^ k * 256 := by ring
    simp only [natLeBytes, natFromLeBytes, ih hd]
    omega

/-- The signed-64 reinterpretation of a `u64`'s bytes, decoded back, is
the original timestamp: the reinterpretation is lossless at width 8. -/
theorem u64DecodeI64_u64EncodeI64 (t : U64) : u64DecodeI64 (u64EncodeI64 t) = t := by
  have ht : t.val < 2 ^ 64 := t.isLt
  have hb : t.val < 256 ^ 8 := by
    calc t.val < 2 ^ 64 := ht
      _ = 256 ^ 8 := by norm_num
  unfold u64EncodeI64 u64DecodeI64 i64FromLeBytes i64ToLeBytes
  rw [natFromLeBytes_natLeBytes hb]
  apply Fin.ext
  have hx : ((if t.val < 2 ^ 63 then ((t.val : Nat) : Int)
      else ((t.val : Nat) : Int) - 2 ^ 64) % (2 ^ 64 : Int)).toNat = t.val := by
    split <;> omega
  show natFromLeBytes (natLeBytes 8 _) % 2 ^ 64 = t.val
  rw [hx, natFromLeBytes_natLeBytes hb, Nat.mod_eq_of_lt ht]

/-- Antichain wire round trip: decoding the encoded antichain recovers
it. -/
theorem frontier_from_proto_into_proto (f : Frontier) :
    Frontier.from_proto f.into_proto = .ok f := by
  cases f with
  | none => rfl
  | some t =>
    simp [Frontier.from_proto, Frontier.into_proto, Frontier.elements, frontierFrom,
      u64DecodeI64_u64EncodeI64, Frontier.insert]

/-! Decimal and semver string lemmas. -/

/-- Reading back a decimal digit character recovers its value. -/
theorem decCharVal_digitChar {n : Nat} (h : n < 10) :
    decCharVal (Nat.digitChar n) = some n := by
  interval_cases n <;> rfl

/-- Digit characters are not dots. -/
theorem digitChar_ne_dot {n : Nat} (h : n < 10) : Nat.digitChar n ≠ '.' := by
  interval_cases n <;> decide

/-- The digit loop ignores any sufficient amount of fuel. -/
theorem toDecimalAux_fuel : ∀ (f1 f2 n : Nat), n < f1 → n < f2 →
    toDecimalAux f1 n = toDecimalAux f2 n := by
  intro f1
  induction f1 with
  | zero => omega
  | succ f1 ih =>
    intro f2 n h1 h2
    cases f2 with
    | zero => omega
    | succ f2 =>
      simp only [toDecimalAux]
      split
      · rfl
      · next h =>
        rw [ih f2 (n / 10) (by omega) (by omega)]

/-- Unfolding equation of the decimal rendering. -/
theorem toDecimal_eq (n : Nat) :
    toDecimal n = if n < 10 then [Nat.digitChar n]
      else toDecimal (n / 10) ++ [Nat.digitChar (n % 10)] := by
  show toDecimalAux (n + 1) n = _
  simp only [toDecimalAux]
  split
  · rfl
  · next h =>
    rw [toDecimalAux_fuel n (n / 10 + 1) (n / 10) (by omega) (by omega)]
    rfl

/-- The decimal accumulator loop distributes over append. -/
theorem fromDecimalAux_append (cs ds : List Char) (acc : Nat) :
    fromDecimalAux (cs ++ ds) acc =
      match fromDecimalAux cs acc with
      | some a => fromDecimalAux ds a
      | none => none := by
  induction cs generalizing acc with
  | nil => simp [fromDecimalAux]
  | cons c cs ih =>
    simp only [List.cons_append, fromDecimalAux]
    cases hcv : decCharVal c with
    | none => simp
    | some d => simp [ih]

/-- Decimal rendering is never empty. -/
theorem toDecimal_ne_nil (n : Nat) : toDecimal n ≠ [] := by
  rw [toDecimal_eq]
  split
  · simp
  · simp

/-- Decimal rendering contains no dot. -/
theorem toDecimal_no_dot (n : Nat) : '.' ∉ toDecimal n := by
  induction n using Nat.strongRecOn with
  | ind n ih =>
    rw [toDecimal_eq]
    split
    · next h =>
      simp only [List.mem_singleton]
      exact fun hc => digitChar_ne_dot h hc.symm
    · next h =>
      intro hmem
      rcases List.mem_append.mp hmem with hmem | hmem
      · exact ih (n / 10) (Nat.div_lt_self (by omega) (by omega)) hmem
      · simp only [List.mem_singleton] at hmem
        exact digitChar_ne_dot (Nat.mod_lt _ (by omega)) hmem.symm

/-- Reading back the decimal rendering recovers the value, for any
accumulator. -/
theorem fromDecimalAux_toDecimal :
    ∀ n acc : Nat, fromDecimalAux (toDecimal n) acc =
      some (acc * 10 ^ (toDecimal n).length + n) := by
  intro n
  induction n using Nat.strongRecOn with
  | ind n ih =>
    intro acc
    rw [toDecimal_eq]
    split
    · next h =>
      simp [fromDecimalAux, decCharVal_digitChar h]
    · next h =>
      rw [fromDecimalAux_append, ih (n / 10) (Nat.div_lt_self (by omega) (by omega)) acc]
      have hm : n % 10 < 10 := Nat.mod_lt n (by norm_num)
      simp only [fromDecimalAux, decCharVal_digitChar hm]
      simp only [List.length_append, List.length_singleton]
      congr 1
      calc (acc * 10 ^ (toDecimal (n / 10)).length + n / 10) * 10 + n % 10
          = acc * (10 ^ (toDecimal (n / 10)).length * 10) + (n / 10 * 10 + n % 10) := by ring
        _ = acc * 10 ^ ((toDecimal (n / 10)).length + 1) + n := by
            rw [← pow_succ]
            congr 1
            omega

/-- Parsing the decimal rendering recovers the value. -/
theorem fromDecimal_toDecimal (n : Nat) : fromDecimal (toDecimal n) = some n := by
  obtain ⟨c, cs, hcs⟩ := List.exists_cons_of_ne_nil (toDecimal_ne_nil n)
  unfold fromDecimal
  rw [hcs]
  show fromDecimalAux (c :: cs) 0 = some n
  rw [← hcs, fromDecimalAux_toDecimal]
  simp

/-- Splitting at the first dot after a dot-free group isolates the group. -/
theorem splitDots_append_dot (a r : List Char) (ha : '.' ∉ a) :
    splitDots (a ++ '.' :: r) = a :: splitDots r := by
  induction a with
  | nil => simp [splitDots]
  | cons c a ih =>
    have hc : ¬(c = '.') := fun h => ha (h ▸ List.mem_cons_self c a)
    have ha2 : '.' ∉ a := fun h => ha (List.mem_cons_of_mem _ h)
    simp only [List.cons_append, splitDots, if_neg hc, List.append_eq, ih ha2]

/-- Splitting a dot-free character list yields the one group. -/
theorem splitDots_no_dot (a : List Char) (ha : '.' ∉ a) : splitDots a = [a] := by
  induction a with
  | nil => rfl
  | cons c a ih =>
    have hc : ¬(c = '.') := fun h => ha (h ▸ List.mem_cons_self c a)
    have ha2 : '.' ∉ a := fun h => ha (List.mem_cons_of_mem _ h)
    simp only [splitDots, if_neg hc, ih ha2]

/-- Semver string round trip: parsing the rendering recovers the
version. -/
theorem version_parse_toString (v : Version) : Version.parse v.toString = some v := by
  unfold Version.parse Version.toString
  have h1 : (String.mk (toDecimal v.major ++ '.' :: toDecimal v.minor ++
      '.' :: toDecimal v.patch)).toList =
      toDecimal v.major ++ '.' :: (toDecimal v.minor ++ '.' :: toDecimal v.patch) := by
    show toDecimal v.major ++ ('.' :: toDecimal v.minor) ++ ('.' :: toDecimal v.patch) =
      toDecimal v.major ++ '.' :: (toDecimal v.minor ++ '.' :: toDecimal v.patch)
    simp
  rw [h1, splitDots_append_dot _ _ (toDecimal_no_dot _),
    splitDots_append_dot _ _ (toDecimal_no_dot _), splitDots_no_dot _ (toDecimal_no_dot _)]
  simp [fromDecimal_toDecimal]

/-- Version renderings are never the empty string. -/
theorem version_toString_ne_empty (v : Version) : v.toString ≠ "" := by
  unfold Version.toString
  intro h
  have h2 : toDecimal v.major ++ '.' :: toDecimal v.minor ++ '.' :: toDecimal v.patch =
      ([] : List Char) := congrArg String.toList h
  simp at h2

/-- Decoding the rendered applier version recovers it. -/
theorem applierVersionFromProto_toString (v : Version) :
    applierVersionFromProto v.toString = .ok v := by
  unfold applierVersionFromProto
  rw [if_neg (version_toString_ne_empty v), version_parse_toString]

/-! Hex, uuid and identifier string lemmas. -/

set_option maxRecDepth 4096 in
/-- Reading back the two hex characters of a byte recovers the byte. -/
theorem hexByte_byteHexChars :
    ∀ b : Byte, hexByte (Nat.digitChar (b.val / 16)) (Nat.digitChar (b.val % 16)) = some b := by
  decide

/-- Parsing the canonical rendering of a uuid recovers it. -/
theorem uuid_parseChars_chars (u : Uuid) : Uuid.parseChars u.chars = some u := by
  cases u
  simp [Uuid.chars, byteHexChars, Uuid.parseChars, hexByte_byteHexChars]

/-- Parsing a prefixed canonical id string recovers the uuid, for any
prefix character. -/
theorem parse_id_roundtrip (c : Char) (ty : String) (u : Uuid) :
    parse_id c ty (String.mk (c :: u.chars)) = .ok u := by
  unfold parse_id
  rw [show (String.mk (c :: u.chars)).toList = c :: u.chars from rfl]
  simp [uuid_parseChars_chars]

/-- Shard id string round trip. -/
theorem shardId_from_proto_toString (x : ShardId) : ShardId.from_proto x.toString = .ok x := by
  cases x
  simp [ShardId.from_proto, ShardId.toString, parse_id_roundtrip]

/-- Leased reader id string round trip. -/
theorem leasedReaderId_from_proto_toString (x : LeasedReaderId) :
    LeasedReaderId.from_proto x.toString = .ok x := by
  cases x
  simp [LeasedReaderId.from_proto, LeasedReaderId.toString, parse_id_roundtrip]

/-- Critical reader id string round trip. -/
theorem criticalReaderId_from_proto_toString (x : CriticalReaderId) :
    CriticalReaderId.from_proto x.toString = .ok x := by
  cases x
  simp [CriticalReaderId.from_proto, CriticalReaderId.toString, parse_id_roundtrip]

/-- Writer id string round trip. -/
theorem writerId_from_proto_toString (x : WriterId) :
    WriterId.from_proto x.toString = .ok x := by
  cases x
  simp [WriterId.from_proto, WriterId.toString, parse_id_roundtrip]

/-- Idempotency token string round trip. -/
theorem idempotencyToken_from_proto_toString (x : IdempotencyToken) :
    IdempotencyToken.from_proto x.toString = .ok x := by
  cases x
  simp [IdempotencyToken.from_proto, IdempotencyToken.toString, parse_id_roundtrip]

/-- Token renderings are never the empty string. -/
theorem idempotencyToken_toString_ne_empty (x : IdempotencyToken) : x.toString ≠ "" := by
  unfold IdempotencyToken.toString
  intro h
  have h2 : ('i' :: x.uuid.chars) = ([] : List Char) := congrArg String.toList h
  simp at h2

/-! Wire round trips of the component records. -/

/-- Debug state wire round trip. -/
theorem handleDebugState_roundtrip (d : HandleDebugState) :
    HandleDebugState.from_proto d.into_proto = d := by
  cases d
  rfl

/-- Description wire round trip. -/
theorem description_roundtrip (d : Description) :
    Description.from_proto d.into_proto = .ok d := by
  cases d
  simp [Description.into_proto, Description.from_proto, intoRustIfSome,
    frontier_from_proto_into_proto, exceptBindOk]

/-- Part wire round trip. -/
theorem hollowBatchPart_roundtrip (p : HollowBatchPart) :
    HollowBatchPart.from_proto p.into_proto = p := by
  cases p
  rfl

/-- Hollow batch wire round trip (recall the encoder writes no legacy
keys). -/
theorem hollowBatch_roundtrip (b : HollowBatch) :
    HollowBatch.from_proto b.into_proto = .ok b := by
  cases b
  simp [HollowBatch.into_proto, HollowBatch.from_proto, intoRustIfSome,
    description_roundtrip, hollowBatchPart_roundtrip, List.map_map, Function.comp_def]

/-- Decoding the unfolded encoding of a `u64` recovers it (restatement of
the codec round trip in the shape the record encoders use). -/
theorem u64DecodeI64_encode_bytes (t : U64) :
    u64DecodeI64 (i64FromLeBytes (natLeBytes 8 t.val)) = t :=
  u64DecodeI64_u64EncodeI64 t

/-- Leased reader state wire round trip, for nonzero lease durations. -/
theorem leasedReaderState_roundtrip (r : LeasedReaderState) (h : r.lease_duration_ms ≠ 0) :
    LeasedReaderState.from_proto r.into_proto = .ok r := by
  cases r with
  | mk seqno since last_heartbeat lease debug =>
    simp only [LeasedReaderState.into_proto, LeasedReaderState.from_proto] at h ⊢
    simp [if_neg h, intoRustIfSome, frontier_from_proto_into_proto, handleDebugState_roundtrip,
      exceptBindOk]

/-- Critical reader state wire round trip. -/
theorem criticalReaderState_roundtrip (r : CriticalReaderState) :
    CriticalReaderState.from_proto r.into_proto = .ok r := by
  cases r with
  | mk since opq codec debug =>
    cases opq
    simp [CriticalReaderState.into_proto, CriticalReaderState.from_proto, intoRustIfSome,
      frontier_from_proto_into_proto, handleDebugState_roundtrip, u64DecodeI64_encode_bytes,
      exceptBindOk]

/-- Writer state wire round trip. -/
theorem writerState_roundtrip (w : WriterState) :
    WriterState.from_proto w.into_proto = .ok w := by
  cases w with
  | mk last_heartbeat lease token upper debug =>
    simp [WriterState.into_proto, WriterState.from_proto,
      if_neg (idempotencyToken_toString_ne_empty token),
      idempotencyToken_from_proto_toString, frontier_from_proto_into_proto,
      handleDebugState_roundtrip, exceptBindOk]

/-! Trace rehydration lemmas. -/

/-- Rehydrating encoded batches none of which is since-ahead of the trace
appends them all, leaving the since untouched. -/
theorem tracePushLoop_ok (s : Frontier) (acc bs : List HollowBatch)
    (h : ∀ b ∈ bs, Frontier.less_than s b.desc.since = false) :
    tracePushLoop ⟨s, acc⟩ (bs.map HollowBatch.into_proto) = .ok ⟨s, acc ++ bs⟩ := by
  induction bs generalizing acc with
  | nil => simp [tracePushLoop]
  | cons b bs ih =>
    have hb : Frontier.less_than s b.desc.since = false := h b (List.mem_cons_self b bs)
    have hrest : ∀ x ∈ bs, Frontier.less_than s x.desc.since = false := fun x hx =>
      h x (List.mem_cons_of_mem _ hx)
    have hstep := ih (acc ++ [b]) hrest
    simp only [Trace.push_batch] at hstep
    simp [tracePushLoop, hollowBatch_roundtrip, exceptBindOk, hb, Trace.push_batch, hstep]

/-- Rehydration stops at the first since-ahead batch with the
invalid-state error naming both frontiers. -/
theorem tracePushLoop_error (s : Frontier) (acc pre : List HollowBatch) (b : HollowBatch)
    (post : List HollowBatch) (hpre : ∀ x ∈ pre, Frontier.less_than s x.desc.since = false)
    (hb : Frontier.less_than s b.desc.since = true) :
    tracePushLoop ⟨s, acc⟩ ((pre ++ b :: post).map HollowBatch.into_proto) =
      .error (.invalidPersistState (traceSinceErrorMsg s b.desc.since)) := by
  induction pre generalizing acc with
  | nil =>
    simp [tracePushLoop, hollowBatch_roundtrip, exceptBindOk, hb]
  | cons x pre ih =>
    have hx : Frontier.less_than s x.desc.since = false := hpre x (List.mem_cons_self x pre)
    have hrest : ∀ y ∈ pre, Frontier.less_than s y.desc.since = false := fun y hy =>
      hpre y (List.mem_cons_of_mem _ hy)
    have hstep := ih (acc ++ [x]) hrest
    simp only [List.map_append, List.map_cons] at hstep
    simp [tracePushLoop, hollowBatch_roundtrip, exceptBindOk, hx, Trace.push_batch, hstep]

/-- Trace wire round trip, given the since invariant. -/
theorem trace_roundtrip (t : Trace)
    (h : ∀ b ∈ t.batches, Frontier.less_than t.since b.desc.since = false) :
    Trace.from_proto t.into_proto = .ok t := by
  cases t with
  | mk s bs =>
    simp only [Trace.into_proto, Trace.from_proto, intoRustIfSome,
      frontier_from_proto_into_proto, exceptBindOk]
    have hd : Trace.default.downgrade_since s = ⟨s, []⟩ := rfl
    rw [hd]
    simpa using tracePushLoop_ok s [] bs h

/-- Every successfully rehydrated trace keeps the rollup's since, and none
of its batches is since-ahead of it. -/
theorem tracePushLoop_invariant (l : List ProtoHollowBatch) :
    ∀ t t', tracePushLoop t l = .ok t' →
      t'.since = t.since ∧
      ∀ b ∈ t'.batches, b ∈ t.batches ∨ Frontier.less_than t.since b.desc.since = false := by
  induction l with
  | nil =>
    intro t t' h
    simp only [tracePushLoop] at h
    cases h
    exact ⟨rfl, fun b hb => Or.inl hb⟩
  | cons pb l ih =>
    intro t t' h
    simp only [tracePushLoop] at h
    cases hfp : HollowBatch.from_proto pb with
    | error e =>
      rw [hfp] at h
      simp [exceptBindErr] at h
    | ok batch =>
      rw [hfp] at h
      simp only [exceptBindOk] at h
      split at h
      · simp at h
      · next hlt =>
        obtain ⟨hsince, hmem⟩ := ih (t.push_batch batch) t' h
        have hs : (t.push_batch batch).since = t.since := rfl
        refine ⟨hsince.trans hs, fun b hb => ?_⟩
        rcases hmem b hb with hmem1 | hmem2
        · rcases List.mem_append.mp hmem1 with h1 | h1
          · exact Or.inl h1
          · simp only [List.mem_singleton] at h1
            subst h1
            right
            simpa using hlt
        · right
          exact hmem2

/-! Association-list map lemmas. -/

/-- Inserting a fresh key appends the binding. -/
theorem alistInsert_notMem {K V : Type} [DecidableEq K] (m : AList K V) (k : K) (v : V)
    (h : k ∉ alistKeys m) : alistInsert m k v = m ++ [(k, v)] := by
  induction m with
  | nil => rfl
  | cons kv m ih =>
    cases kv with
    | mk k2 v2 =>
      have hne : ¬(k2 = k) := fun he => h (by simp [alistKeys, he])
      have h2 : k ∉ alistKeys m := fun hm => h (by simp [alistKeys] at hm ⊢; exact Or.inr hm)
      simp [alistInsert, hne, ih h2]

/-- Decoding a wire pair list that pointwise decodes to the bindings of a
duplicate-free map rebuilds the map, for any already-decoded prefix with
disjoint keys. -/
theorem alistFromProto_gen {KP VP K V : Type} [DecidableEq K]
    (decK : KP → Except TryFromProtoError K) (decV : VP → Except TryFromProtoError V) :
    ∀ (l : List (KP × VP)) (acc m : AList K V),
      List.Forall₂ (fun (kv : KP × VP) (kv2 : K × V) =>
        decK kv.1 = .ok kv2.1 ∧ decV kv.2 = .ok kv2.2) l m →
      (alistKeys m).Nodup → (∀ k ∈ alistKeys m, k ∉ alistKeys acc) →
      l.foldlM
        (fun m kv => do
          let k ← decK kv.1
          let v ← decV kv.2
          pure (alistInsert m k v))
        acc = .ok (acc ++ m) := by
  intro l
  induction l with
  | nil =>
    intro acc m hf _ _
    cases hf
    simp
    rfl
  | cons kv l ih =>
    intro acc m hf hnd hdis
    cases hf with
    | cons hkv hrest =>
      next b m2 =>
        obtain ⟨hk, hv⟩ := hkv
        rw [List.foldlM_cons, hk]
        simp only [exceptBindOk, hv]
        have hkeys_cons : alistKeys (b :: m2) = b.1 :: alistKeys m2 := rfl
        rw [hkeys_cons] at hnd hdis
        rw [List.nodup_cons] at hnd
        obtain ⟨hb2, hnd2⟩ := hnd
        have hb1 : b.1 ∉ alistKeys acc := hdis b.1 (List.mem_cons_self _ _)
        have hins : alistInsert acc b.1 b.2 = acc ++ [(b.1, b.2)] :=
          alistInsert_notMem acc b.1 b.2 hb1
        have hdis2 : ∀ k ∈ alistKeys m2, k ∉ alistKeys (acc ++ [(b.1, b.2)]) := by
          intro k hkm
          have hkacc : k ∉ alistKeys acc := hdis k (List.mem_cons_of_mem _ hkm)
          have hkeys_app : alistKeys (acc ++ [(b.1, b.2)]) = alistKeys acc ++ [b.1] := by
            simp [alistKeys]
          rw [hkeys_app]
          intro hmem
          rcases List.mem_append.mp hmem with h1 | h1
          · exact hkacc h1
          · rw [List.mem_singleton] at h1
            exact hb2 (h1 ▸ hkm)
        have := ih (acc ++ [(b.1, b.2)]) m2 hrest hnd2 hdis2
        rw [hins]
        have hb3 : ((b.1, b.2) : K × V) = b := rfl
        rw [hb3] at this
        simp only [pure_bind]
        rw [this]
        simp only [List.append_assoc, List.singleton_append]

/-- Identity-codec map fields (the rollups) round trip. -/
theorem alistFromProto_id {K V : Type} [DecidableEq K] (m : AList K V)
    (hnd : (alistKeys m).Nodup) :
    alistFromProto (fun (k : K) => (.ok k : Except TryFromProtoError K))
      (fun (v : V) => (.ok v : Except TryFromProtoError V)) m = .ok m := by
  unfold alistFromProto
  have hforall : List.Forall₂
      (fun (kv : K × V) (kv2 : K × V) =>
        (.ok kv.1 : Except TryFromProtoError K) = .ok kv2.1 ∧
        (.ok kv.2 : Except TryFromProtoError V) = .ok kv2.2) m m := by
    rw [List.forall₂_same]
    exact fun kv _ => ⟨rfl, rfl⟩
  simpa using alistFromProto_gen _ _ m [] m hforall hnd (by simp [alistKeys])

/-- Encoded map fields round trip when both component codecs do. -/
theorem alistFromProto_enc {KP VP K V : Type} [DecidableEq K]
    (encK : K → KP) (encV : V → VP) (decK : KP → Except TryFromProtoError K)
    (decV : VP → Except TryFromProtoError V) (m : AList K V)
    (hK : ∀ kv ∈ m, decK (encK kv.1) = .ok kv.1)
    (hV : ∀ kv ∈ m, decV (encV kv.2) = .ok kv.2)
    (hnd : (alistKeys m).Nodup) :
    alistFromProto decK decV (m.map fun kv => (encK kv.1, encV kv.2)) = .ok m := by
  unfold alistFromProto
  have hforall : List.Forall₂
      (fun (kv : KP × VP) (kv2 : K × V) =>
        decK kv.1 = .ok kv2.1 ∧ decV kv.2 = .ok kv2.2)
      (m.map fun kv => (encK kv.1, encV kv.2)) m := by
    rw [List.forall₂_map_left_iff, List.forall₂_same]
    exact fun kv hkv => ⟨hK kv hkv, hV kv hkv⟩
  simpa using alistFromProto_gen _ _ _ [] m hforall hnd (by simp [alistKeys])

/-! State rollup round trip. -/

/-- Converting an encoded well-formed state back from its wire form
recovers it (with the timestamp codec name pinned by `T = u64`). -/
theorem untypedState_from_proto_into_proto (s : State) (kc vc dc : String) (h : StateWF s) :
    UntypedState.from_proto (s.into_proto kc vc dc) = .ok ⟨kc, vc, u64CodecName, dc, s⟩ := by
  obtain ⟨hnd1, hnd2, hnd3, hnd4, hlease, htrace⟩ := h
  unfold UntypedState.from_proto State.into_proto
  simp only [applierVersionFromProto_toString, exceptBindOk]
  rw [alistFromProto_id _ hnd1]
  simp only [exceptBindOk]
  rw [alistFromProto_enc _ _ _ _ _ (fun kv _ => leasedReaderId_from_proto_toString kv.1)
    (fun kv hkv => leasedReaderState_roundtrip kv.2 (hlease kv hkv)) hnd2]
  simp only [exceptBindOk]
  rw [alistFromProto_enc _ _ _ _ _ (fun kv _ => criticalReaderId_from_proto_toString kv.1)
    (fun kv _ => criticalReaderState_roundtrip kv.2) hnd3]
  simp only [exceptBindOk]
  rw [alistFromProto_enc _ _ _ _ _ (fun kv _ => writerId_from_proto_toString kv.1)
    (fun kv _ => writerState_roundtrip kv.2) hnd4]
  simp only [exceptBindOk]
  show (do
    let trace ← intoRustIfSome Trace.from_proto "trace" (some s.collections.trace.into_proto)
    let shard_id ← ShardId.from_proto s.shard_id.toString
    _) = _
  rw [show intoRustIfSome Trace.from_proto "trace" (some s.collections.trace.into_proto) =
    Trace.from_proto s.collections.trace.into_proto from rfl]
  rw [trace_roundtrip _ htrace]
  simp only [exceptBindOk, shardId_from_proto_toString]
  cases s with
  | mk av sid seq wt hn cols =>
    cases cols
    rfl

/-! Parallel-array diff codec lemmas. -/

/-- Encoding one delta appends its tag, diff type, key chunk and value
chunks. -/
theorem field_diff_into_proto_spec {K V : Type} (field : ProtoStateField)
    (d : StateFieldDiff K V) (p : ProtoStateFieldDiffs) (k_fn : K → ProtoVal)
    (v_fn : V → ProtoVal) :
    field_diff_into_proto field d p k_fn v_fn =
      ⟨p.fields ++ [field.tag], p.diff_types ++ [d.val.wireTag],
        p.data ++ (k_fn d.key :: d.val.chunks v_fn)⟩ := by
  cases d with
  | mk key val =>
    cases val <;>
      simp [field_diff_into_proto, StateFieldValDiff.wireTag, StateFieldValDiff.chunks]

/-- Encoding a group appends its three columns. -/
theorem field_diffs_into_proto_spec {K V : Type} (field : ProtoStateField)
    (g : List (StateFieldDiff K V)) (p : ProtoStateFieldDiffs) (k_fn : K → ProtoVal)
    (v_fn : V → ProtoVal) :
    field_diffs_into_proto field g p k_fn v_fn =
      ⟨p.fields ++ groupFields field g, p.diff_types ++ groupDts g,
        p.data ++ groupData g k_fn v_fn⟩ := by
  induction g generalizing p with
  | nil =>
    cases p
    simp [field_diffs_into_proto, groupFields, groupDts, groupData]
  | cons d g ih =>
    have hstep : field_diffs_into_proto field (d :: g) p k_fn v_fn =
        field_diffs_into_proto field g (field_diff_into_proto field d p k_fn v_fn) k_fn v_fn :=
      rfl
    rw [hstep, ih, field_diff_into_proto_spec]
    simp [groupFields, groupDts, groupData]

/-- Field tags decode back to their field. -/
theorem protoStateField_ofTag_tag (f : ProtoStateField) :
    ProtoStateField.ofTag f.tag = some f := by
  cases f <;> rfl

/-- Diff-type tags decode back to their diff type. -/
theorem protoStateFieldDiffType_ofTag_tag (t : ProtoStateFieldDiffType) :
    ProtoStateFieldDiffType.ofTag t.tag = some t := by
  cases t <;> rfl

/-- Scanning one encoded group in front of any remainder yields the
group's records followed by the scan of the remainder. -/
theorem protoFieldDiffsIter_group {K V : Type} (field : ProtoStateField)
    (g : List (StateFieldDiff K V)) (k_fn : K → ProtoVal) (v_fn : V → ProtoVal)
    (fs dts : List Nat) (data : List ProtoVal) :
    protoFieldDiffsIter (groupFields field g ++ fs) (groupDts g ++ dts)
        (groupData g k_fn v_fn ++ data) =
      (do
        let rest ← protoFieldDiffsIter fs dts data
        pure ((g.map fun d => (field, fieldDiffRecord d k_fn v_fn)) ++ rest)) := by
  induction g with
  | nil =>
    simp only [groupFields, groupDts, groupData, List.map_nil, List.flatMap_nil,
      List.nil_append]
    cases protoFieldDiffsIter fs dts data <;> rfl
  | cons d g ih =>
    cases d with
    | mk key val =>
      cases val with
      | Insert toV =>
        rw [show groupFields field (⟨key, .Insert toV⟩ :: g) ++ fs =
            field.tag :: (groupFields field g ++ fs) from rfl,
          show groupDts (⟨key, StateFieldValDiff.Insert toV⟩ :: g) ++ dts =
            ProtoStateFieldDiffType.Insert.tag :: (groupDts g ++ dts) from rfl,
          show groupData (⟨key, StateFieldValDiff.Insert toV⟩ :: g) k_fn v_fn ++ data =
            k_fn key :: v_fn toV :: (groupData g k_fn v_fn ++ data) from rfl]
        simp only [protoFieldDiffsIter, protoStateField_ofTag_tag,
          protoStateFieldDiffType_ofTag_tag, exceptBindOk]
        rw [ih]
        cases protoFieldDiffsIter fs dts data with
        | error e => rfl
        | ok rest => rfl
      | Update fromV toV =>
        rw [show groupFields field (⟨key, .Update fromV toV⟩ :: g) ++ fs =
            field.tag :: (groupFields field g ++ fs) from rfl,
          show groupDts (⟨key, StateFieldValDiff.Update fromV toV⟩ :: g) ++ dts =
            ProtoStateFieldDiffType.Update.tag :: (groupDts g ++ dts) from rfl,
          show groupData (⟨key, StateFieldValDiff.Update fromV toV⟩ :: g) k_fn v_fn ++ data =
            k_fn key :: v_fn fromV :: v_fn toV :: (groupData g k_fn v_fn ++ data) from rfl]
        simp only [protoFieldDiffsIter, protoStateField_ofTag_tag,
          protoStateFieldDiffType_ofTag_tag, exceptBindOk]
        rw [ih]
        cases protoFieldDiffsIter fs dts data with
        | error e => rfl
        | ok rest => rfl
      | Delete fromV =>
        rw [show groupFields field (⟨key, .Delete fromV⟩ :: g) ++ fs =
            field.tag :: (groupFields field g ++ fs) from rfl,
          show groupDts (⟨key, StateFieldValDiff.Delete fromV⟩ :: g) ++ dts =
            ProtoStateFieldDiffType.Delete.tag :: (groupDts g ++ dts) from rfl,
          show groupData (⟨key, StateFieldValDiff.Delete fromV⟩ :: g) k_fn v_fn ++ data =
            k_fn key :: v_fn fromV :: (groupData g k_fn v_fn ++ data) from rfl]
        simp only [protoFieldDiffsIter, protoStateField_ofTag_tag,
          protoStateFieldDiffType_ofTag_tag, exceptBindOk]
        rw [ih]
        cases protoFieldDiffsIter fs dts data with
        | error e => rfl
        | ok rest => rfl

/-- Decoding the scanned record of one encoded delta appends the delta,
whenever the key and value decoders invert the encoders on it. -/
theorem field_diff_into_rust_record {K V : Type} (d : StateFieldDiff K V)
    (lst : List (StateFieldDiff K V)) (k_fn : K → ProtoVal) (v_fn : V → ProtoVal)
    (kdec : ProtoVal → Except TryFromProtoError K) (vdec : ProtoVal → Except TryFromProtoError V)
    (hk : kdec (k_fn d.key) = .ok d.key)
    (hv : ValDiffAll (fun v => vdec (v_fn v) = .ok v) d.val) :
    field_diff_into_rust (fieldDiffRecord d k_fn v_fn) lst kdec vdec = .ok (lst ++ [d]) := by
  cases d with
  | mk key val =>
    cases val with
    | Insert toV =>
      simp only [ValDiffAll] at hv
      simp [fieldDiffRecord, field_diff_into_rust, hv, hk, exceptBindOk]
    | Update fromV toV =>
      obtain ⟨hv1, hv2⟩ := hv
      simp [fieldDiffRecord, field_diff_into_rust, hv1, hv2, hk, exceptBindOk]
    | Delete fromV =>
      simp only [ValDiffAll] at hv
      simp [fieldDiffRecord, field_diff_into_rust, hv, hk, exceptBindOk]

/-- Processing an encoded hostname group appends it to the hostname
deltas. -/
theorem processGroup_hostname (g : List (StateFieldDiff Unit String)) :
    ∀ (acc : StateDiff) (rest : List (ProtoStateField × ProtoStateFieldDiffR)),
      List.foldlM applyFieldDiffEntry acc
        ((g.map fun d => (ProtoStateField.Hostname,
          fieldDiffRecord d (fun _ => .unitV) (fun v => .strV v))) ++ rest) =
      List.foldlM applyFieldDiffEntry { acc with hostname := acc.hostname ++ g } rest := by
  induction g with
  | nil =>
    intro acc rest
    simp
  | cons d g ih =>
    intro acc rest
    have hv : ValDiffAll (fun v => expectStr (ProtoVal.strV v) = .ok v) d.val := by
      cases d.val <;> simp [ValDiffAll, expectStr]
    have hstep : applyFieldDiffEntry acc (ProtoStateField.Hostname,
        fieldDiffRecord d (fun _ => .unitV) (fun v => .strV v)) =
        .ok { acc with hostname := acc.hostname ++ [d] } := by
      simp [applyFieldDiffEntry,
        field_diff_into_rust_record d acc.hostname (fun _ => ProtoVal.unitV)
          (fun v => ProtoVal.strV v) expectUnit expectStr rfl hv,
        exceptBindOk]
    rw [List.map_cons, List.cons_append, List.foldlM_cons, hstep]
    simp only [exceptBindOk, ih]
    simp [List.append_assoc]

/-- Processing an encoded last-gc-req group appends it. -/
theorem processGroup_lastGcReq (g : List (StateFieldDiff Unit Nat)) :
    ∀ (acc : StateDiff) (rest : List (ProtoStateField × ProtoStateFieldDiffR)),
      List.foldlM applyFieldDiffEntry acc
        ((g.map fun d => (ProtoStateField.LastGcReq,
          fieldDiffRecord d (fun _ => .unitV) (fun v => .u64V v))) ++ rest) =
      List.foldlM applyFieldDiffEntry { acc with last_gc_req := acc.last_gc_req ++ g } rest := by
  induction g with
  | nil =>
    intro acc rest
    simp
  | cons d g ih =>
    intro acc rest
    have hv : ValDiffAll (fun v => expectU64 (ProtoVal.u64V v) = .ok v) d.val := by
      cases d.val <;> simp [ValDiffAll, expectU64]
    have hstep : applyFieldDiffEntry acc (ProtoStateField.LastGcReq,
        fieldDiffRecord d (fun _ => .unitV) (fun v => .u64V v)) =
        .ok { acc with last_gc_req := acc.last_gc_req ++ [d] } := by
      simp [applyFieldDiffEntry,
        field_diff_into_rust_record d acc.last_gc_req (fun _ => ProtoVal.unitV)
          (fun v => ProtoVal.u64V v) expectUnit expectU64 rfl hv,
        exceptBindOk]
    rw [List.map_cons, List.cons_append, List.foldlM_cons, hstep]
    simp only [exceptBindOk, ih]
    simp [List.append_assoc]

/-- Processing an encoded rollups group appends it. -/
theorem processGroup_rollups (g : List (StateFieldDiff Nat String)) :
    ∀ (acc : StateDiff) (rest : List (ProtoStateField × ProtoStateFieldDiffR)),
      List.foldlM applyFieldDiffEntry acc
        ((g.map fun d => (ProtoStateField.Rollups,
          fieldDiffRecord d (fun k => .u64V k) (fun v => .strV v))) ++ rest) =
      List.foldlM applyFieldDiffEntry { acc with rollups := acc.rollups ++ g } rest := by
  induction g with
  | nil =>
    intro acc rest
    simp
  | cons d g ih =>
    intro acc rest
    have hv : ValDiffAll (fun v => expectStr (ProtoVal.strV v) = .ok v) d.val := by
      cases d.val <;> simp [ValDiffAll, expectStr]
    have hstep : applyFieldDiffEntry acc (ProtoStateField.Rollups,
        fieldDiffRecord d (fun k => .u64V k) (fun v => .strV v)) =
        .ok { acc with rollups := acc.rollups ++ [d] } := by
      simp [applyFieldDiffEntry,
        field_diff_into_rust_record d acc.rollups (fun k => ProtoVal.u64V k)
          (fun v => ProtoVal.strV v) expectU64 expectStr rfl hv,
        exceptBindOk]
    rw [List.map_cons, List.cons_append, List.foldlM_cons, hstep]
    simp only [exceptBindOk, ih]
    simp [List.append_assoc]

/-- Processing an encoded leased-readers group appends it, given nonzero
lease durations. -/
theorem processGroup_leasedReaders (g : List (StateFieldDiff LeasedReaderId LeasedReaderState)) :
    ∀ (acc : StateDiff) (rest : List (ProtoStateField × ProtoStateFieldDiffR)),
      (∀ d ∈ g, ValDiffAll (fun v => v.lease_duration_ms ≠ 0) d.val) →
      List.foldlM applyFieldDiffEntry acc
        ((g.map fun d => (ProtoStateField.LeasedReaders,
          fieldDiffRecord d (fun k => .strV k.toString) (fun v => .leasedV v.into_proto))) ++
          rest) =
      List.foldlM applyFieldDiffEntry
        { acc with leased_readers := acc.leased_readers ++ g } rest := by
  induction g with
  | nil =>
    intro acc rest _
    simp
  | cons d g ih =>
    intro acc rest hg
    have hd := hg d (List.mem_cons_self d g)
    have hk : (fun pv => do
        let s ← expectStr pv
        LeasedReaderId.from_proto s) (ProtoVal.strV d.key.toString) = .ok d.key := by
      simp [expectStr, exceptBindOk, leasedReaderId_from_proto_toString]
    have hv : ValDiffAll (fun v => (fun pv => do
        let q ← expectLeased pv
        LeasedReaderState.from_proto q) (ProtoVal.leasedV v.into_proto) = .ok v) d.val := by
      cases hval : d.val with
      | Insert toV =>
        rw [hval] at hd
        simp only [ValDiffAll] at hd ⊢
        simp [expectLeased, exceptBindOk, leasedReaderState_roundtrip _ hd]
      | Update fromV toV =>
        rw [hval] at hd
        obtain ⟨h1, h2⟩ := hd
        refine ⟨?_, ?_⟩ <;>
          simp [expectLeased, exceptBindOk, leasedReaderState_roundtrip _ h1,
            leasedReaderState_roundtrip _ h2]
      | Delete fromV =>
        rw [hval] at hd
        simp only [ValDiffAll] at hd ⊢
        simp [expectLeased, exceptBindOk, leasedReaderState_roundtrip _ hd]
    have hstep : applyFieldDiffEntry acc (ProtoStateField.LeasedReaders,
        fieldDiffRecord d (fun k => .strV k.toString) (fun v => .leasedV v.into_proto)) =
        .ok { acc with leased_readers := acc.leased_readers ++ [d] } := by
      simp [applyFieldDiffEntry,
        field_diff_into_rust_record d acc.leased_readers (fun k => ProtoVal.strV k.toString)
          (fun v => ProtoVal.leasedV v.into_proto)
          (fun pv => do
            let s ← expectStr pv
            LeasedReaderId.from_proto s)
          (fun pv => do
            let q ← expectLeased pv
            LeasedReaderState.from_proto q) hk hv, exceptBindOk]
    rw [List.map_cons, List.cons_append, List.foldlM_cons, hstep]
    simp only [exceptBindOk]
    rw [ih _ _ fun x hx => hg x (List.mem_cons_of_mem _ hx)]
    simp [List.append_assoc]

/-- Processing an encoded critical-readers group appends it. -/
theorem processGroup_criticalReaders
    (g : List (StateFieldDiff CriticalReaderId CriticalReaderState)) :
    ∀ (acc : StateDiff) (rest : List (ProtoStateField × ProtoStateFieldDiffR)),
      List.foldlM applyFieldDiffEntry acc
        ((g.map fun d => (ProtoStateField.CriticalReaders,
          fieldDiffRecord d (fun k => .strV k.toString) (fun v => .criticalV v.into_proto))) ++
          rest) =
      List.foldlM applyFieldDiffEntry
        { acc with critical_readers := acc.critical_readers ++ g } rest := by
  induction g with
  | nil =>
    intro acc rest
    simp
  | cons d g ih =>
    intro acc rest
    have hk : (fun pv => do
        let s ← expectStr pv
        CriticalReaderId.from_proto s) (ProtoVal.strV d.key.toString) = .ok d.key := by
      simp [expectStr, exceptBindOk, criticalReaderId_from_proto_toString]
    have hv : ValDiffAll (fun v => (fun pv => do
        let q ← expectCritical pv
        CriticalReaderState.from_proto q) (ProtoVal.criticalV v.into_proto) = .ok v) d.val := by
      cases d.val <;>
        simp [ValDiffAll, expectCritical, exceptBindOk, criticalReaderState_roundtrip]
    have hstep : applyFieldDiffEntry acc (ProtoStateField.CriticalReaders,
        fieldDiffRecord d (fun k => .strV k.toString) (fun v => .criticalV v.into_proto)) =
        .ok { acc with critical_readers := acc.critical_readers ++ [d] } := by
      simp [applyFieldDiffEntry,
        field_diff_into_rust_record d acc.critical_readers (fun k => ProtoVal.strV k.toString)
          (fun v => ProtoVal.criticalV v.into_proto)
          (fun pv => do
            let s ← expectStr pv
            CriticalReaderId.from_proto s)
          (fun pv => do
            let q ← expectCritical pv
            CriticalReaderState.from_proto q) hk hv, exceptBindOk]
    rw [List.map_cons, List.cons_append, List.foldlM_cons, hstep]
    simp only [exceptBindOk, ih]
    simp [List.append_assoc]

/-- Processing an encoded writers group appends it. -/
theorem processGroup_writers (g : List (StateFieldDiff WriterId WriterState)) :
    ∀ (acc : StateDiff) (rest : List (ProtoStateField × ProtoStateFieldDiffR)),
      List.foldlM applyFieldDiffEntry acc
        ((g.map fun d => (ProtoStateField.Writers,
          fieldDiffRecord d (fun k => .strV k.toString) (fun v => .writerV v.into_proto))) ++
          rest) =
      List.foldlM applyFieldDiffEntry { acc with writers := acc.writers ++ g } rest := by
  induction g with
  | nil =>
    intro acc rest
    simp
  | cons d g ih =>
    intro acc rest
    have hk : (fun pv => do
        let s ← expectStr pv
        WriterId.from_proto s) (ProtoVal.strV d.key.toString) = .ok d.key := by
      simp [expectStr, exceptBindOk, writerId_from_proto_toString]
    have hv : ValDiffAll (fun v => (fun pv => do
        let q ← expectWriter pv
        WriterState.from_proto q) (ProtoVal.writerV v.into_proto) = .ok v) d.val := by
      cases d.val <;> simp [ValDiffAll, expectWriter, exceptBindOk, writerState_roundtrip]
    have hstep : applyFieldDiffEntry acc (ProtoStateField.Writers,
        fieldDiffRecord d (fun k => .strV k.toString) (fun v => .writerV v.into_proto)) =
        .ok { acc with writers := acc.writers ++ [d] } := by
      simp [applyFieldDiffEntry,
        field_diff_into_rust_record d acc.writers (fun k => ProtoVal.strV k.toString)
          (fun v => ProtoVal.writerV v.into_proto)
          (fun pv => do
            let s ← expectStr pv
            WriterId.from_proto s)
          (fun pv => do
            let q ← expectWriter pv
            WriterState.from_proto q) hk hv, exceptBindOk]
    rw [List.map_cons, List.cons_append, List.foldlM_cons, hstep]
    simp only [exceptBindOk, ih]
    simp [List.append_assoc]

/-- Processing an encoded since group appends it. -/
theorem processGroup_since (g : List (StateFieldDiff Unit Frontier)) :
    ∀ (acc : StateDiff) (rest : List (ProtoStateField × ProtoStateFieldDiffR)),
      List.foldlM applyFieldDiffEntry acc
        ((g.map fun d => (ProtoStateField.Since,
          fieldDiffRecord d (fun _ => .unitV) (fun v => .antichainV v.into_proto))) ++ rest) =
      List.foldlM applyFieldDiffEntry { acc with since := acc.since ++ g } rest := by
  induction g with
  | nil =>
    intro acc rest
    simp
  | cons d g ih =>
    intro acc rest
    have hv : ValDiffAll (fun v => (fun pv => do
        let q ← expectAntichain pv
        Frontier.from_proto q) (ProtoVal.antichainV v.into_proto) = .ok v) d.val := by
      cases d.val <;>
        simp [ValDiffAll, expectAntichain, exceptBindOk, frontier_from_proto_into_proto]
    have hstep : applyFieldDiffEntry acc (ProtoStateField.Since,
        fieldDiffRecord d (fun _ => .unitV) (fun v => .antichainV v.into_proto)) =
        .ok { acc with since := acc.since ++ [d] } := by
      simp [applyFieldDiffEntry,
        field_diff_into_rust_record d acc.since (fun _ => ProtoVal.unitV)
          (fun v => ProtoVal.antichainV v.into_proto) expectUnit
          (fun pv => do
            let q ← expectAntichain pv
            Frontier.from_proto q) rfl hv, exceptBindOk]
    rw [List.map_cons, List.cons_append, List.foldlM_cons, hstep]
    simp only [exceptBindOk, ih]
    simp [List.append_assoc]

/-- Processing an encoded spine group appends it. -/
theorem processGroup_spine (g : List (StateFieldDiff HollowBatch Unit)) :
    ∀ (acc : StateDiff) (rest : List (ProtoStateField × ProtoStateFieldDiffR)),
      List.foldlM applyFieldDiffEntry acc
        ((g.map fun d => (ProtoStateField.Spine,
          fieldDiffRecord d (fun k => .batchV k.into_proto) (fun _ => .unitV))) ++ rest) =
      List.foldlM applyFieldDiffEntry { acc with spine := acc.spine ++ g } rest := by
  induction g with
  | nil =>
    intro acc rest
    simp
  | cons d g ih =>
    intro acc rest
    have hk : (fun pv => do
        let q ← expectBatch pv
        HollowBatch.from_proto q) (ProtoVal.batchV d.key.into_proto) = .ok d.key := by
      simp [expectBatch, exceptBindOk, hollowBatch_roundtrip]
    have hv : ValDiffAll (fun v => expectUnit ((fun _ => ProtoVal.unitV) v) = .ok v) d.val := by
      cases d.val <;> simp [ValDiffAll, expectUnit]
    have hstep : applyFieldDiffEntry acc (ProtoStateField.Spine,
        fieldDiffRecord d (fun k => .batchV k.into_proto) (fun _ => .unitV)) =
        .ok { acc with spine := acc.spine ++ [d] } := by
      simp [applyFieldDiffEntry,
        field_diff_into_rust_record d acc.spine (fun k => ProtoVal.batchV k.into_proto)
          (fun _ => ProtoVal.unitV)
          (fun pv => do
            let q ← expectBatch pv
            HollowBatch.from_proto q) expectUnit hk hv, exceptBindOk]
    rw [List.map_cons, List.cons_append, List.foldlM_cons, hstep]
    simp only [exceptBindOk, ih]
    simp [List.append_assoc]

/-- Scanning one encoded group with nothing after it yields exactly the
group's records. -/
theorem protoFieldDiffsIter_group_closed {K V : Type} (field : ProtoStateField)
    (g : List (StateFieldDiff K V)) (k_fn : K → ProtoVal) (v_fn : V → ProtoVal) :
    protoFieldDiffsIter (groupFields field g) (groupDts g) (groupData g k_fn v_fn) =
      .ok (g.map fun d => (field, fieldDiffRecord d k_fn v_fn)) := by
  have h := protoFieldDiffsIter_group field g k_fn v_fn [] [] []
  simpa [protoFieldDiffsIter] using h

/-- Processing an encoded spine group with nothing after it finishes the
fold. -/
theorem processGroup_spine_closed (g : List (StateFieldDiff HollowBatch Unit)) (acc : StateDiff) :
    List.foldlM applyFieldDiffEntry acc
      (g.map fun d => (ProtoStateField.Spine,
        fieldDiffRecord d (fun k => .batchV k.into_proto) (fun _ => .unitV))) =
      .ok { acc with spine := acc.spine ++ g } := by
  have h := processGroup_spine g acc []
  simpa using h

/-- State diff wire round trip: converting an encoded well-formed diff
back recovers it. -/
theorem stateDiff_from_proto_into_proto (d : StateDiff) (h : StateDiffWF d) :
    StateDiff.from_proto d.into_proto = .ok d := by
  cases d with
  | mk av sf st wm lrk rups hn lgc lr cr wr snc spn =>
    unfold StateDiff.into_proto StateDiff.from_proto
    simp only [field_diffs_into_proto_spec, List.nil_append, applierVersionFromProto_toString,
      exceptBindOk]
    simp only [List.append_assoc]
    simp only [protoFieldDiffsIter_group, protoFieldDiffsIter_group_closed, exceptBindOk,
      pure_bind]
    rw [processGroup_hostname, processGroup_lastGcReq, processGroup_rollups]
    rw [processGroup_leasedReaders _ _ _ h]
    rw [processGroup_criticalReaders, processGroup_writers, processGroup_since,
      processGroup_spine_closed]
    simp [StateDiff.new]

/-! Claim theorems. -/

/-- C1 (amended): during trace rehydration over a rollup's
(since_0, ordered batches), processing each batch in order, the rollup is
rejected with an InvalidPersistState error naming both frontiers exactly
when the trace's since is strictly LESS than the batch's since under the
partial order on antichains — the opposite direction from the claim's
"strictly greater" — and otherwise every batch is pushed. -/
theorem trace_rehydration_since_gate (s0 : Frontier) (bs pre post : List HollowBatch)
    (b : HollowBatch) :
    ((∀ x ∈ bs, Frontier.less_than s0 x.desc.since = false) →
      Trace.from_proto ⟨some s0.into_proto, bs.map HollowBatch.into_proto⟩ = .ok ⟨s0, bs⟩) ∧
    (bs = pre ++ b :: post → (∀ x ∈ pre, Frontier.less_than s0 x.desc.since = false) →
      Frontier.less_than s0 b.desc.since = true →
      Trace.from_proto ⟨some s0.into_proto, bs.map HollowBatch.into_proto⟩ =
        .error (.invalidPersistState (traceSinceErrorMsg s0 b.desc.since))) := by
  have hd : Trace.default.downgrade_since s0 = ⟨s0, []⟩ := rfl
  constructor
  · intro h
    simp only [Trace.from_proto, intoRustIfSome, frontier_from_proto_into_proto, exceptBindOk]
    rw [hd]
    simpa using tracePushLoop_ok s0 [] bs h
  · intro hbs hpre hb
    subst hbs
    simp only [Trace.from_proto, intoRustIfSome, frontier_from_proto_into_proto, exceptBindOk]
    rw [hd]
    exact tracePushLoop_error s0 [] pre b post hpre hb

/-- Witness for C1's amended gate at concrete frontiers: a batch with
since 3 under a rollup since 5 is pushed; a batch with since 5 under a
rollup since 3 is rejected. -/
theorem trace_rehydration_since_gate_witness :
    Trace.from_proto ⟨some (Frontier.into_proto (some 5)),
        [(batchWithSince 3).into_proto]⟩ = .ok ⟨some 5, [batchWithSince 3]⟩ ∧
    Trace.from_proto ⟨some (Frontier.into_proto (some 3)),
        [(batchWithSince 5).into_proto]⟩ =
      .error (.invalidPersistState
        (traceSinceErrorMsg (some 3) (batchWithSince 5).desc.since)) := by
  constructor
  · exact (trace_rehydration_since_gate (some 5) [batchWithSince 3] [] []
      (batchWithSince 3)).1 (by decide)
  · exact (trace_rehydration_since_gate (some 3) [batchWithSince 5] [] []
      (batchWithSince 5)).2 rfl (by simp) (by decide)

/-- Counterexample to C1 as stated: with rollup since `{3}` and one batch
of since `{5}`, the claimed rejection condition (trace.since strictly
greater than batch since) is false, so the claim requires the batch to be
pushed, yet rehydration rejects the rollup; conversely with since `{5}`
and batch since `{3}` the claimed condition holds, yet the batch is
pushed. -/
theorem trace_rehydration_claimed_direction_false :
    Frontier.less_than (some 5) (some 3) = false ∧
    Trace.from_proto protoTraceSince3Batch5 =
      .error (.invalidPersistState (traceSinceErrorMsg (some 3) (some 5))) ∧
    Frontier.less_than (some 3) (some 5) = true ∧
    Trace.from_proto protoTraceSince5Batch3 = .ok traceSince5Batch3 := by
  refine ⟨by decide, by rfl, by decide, by rfl⟩

/-- C2 (amended): for every successfully rehydrated trace, no batch has a
since frontier strictly greater than the trace's since — the rehydration
gate enforces the reversed inequality, not the claimed
trace.since ≤ batch.since. -/
theorem trace_rehydrated_monotonicity (p : ProtoTrace) (t : Trace)
    (h : Trace.from_proto p = .ok t) :
    ∀ b ∈ t.batches, Frontier.less_than t.since b.desc.since = false := by
  unfold Trace.from_proto at h
  cases hs : intoRustIfSome Frontier.from_proto "since" p.since with
  | error e =>
    rw [hs] at h
    simp [exceptBindErr] at h
  | ok s =>
    rw [hs] at h
    simp only [exceptBindOk] at h
    obtain ⟨hsince, hmem⟩ := tracePushLoop_invariant p.spine _ t h
    intro b hb
    rcases hmem b hb with h1 | h1
    · simp [Trace.default, Trace.downgrade_since] at h1
    · rw [hsince]
      exact h1

/-- Witness for C2's amended invariant on a concretely rehydrated
trace. -/
theorem trace_rehydrated_monotonicity_witness :
    Trace.from_proto protoTraceSince5Batch3 = .ok traceSince5Batch3 ∧
    ∀ b ∈ traceSince5Batch3.batches,
      Frontier.less_than traceSince5Batch3.since b.desc.since = false :=
  ⟨rfl, trace_rehydrated_monotonicity protoTraceSince5Batch3 traceSince5Batch3 rfl⟩

/-- Counterexample to C2 as stated: the trace rehydrated from
(since `{5}`, one batch with since `{3}`) contains a batch for which
trace.since ≤ batch.desc.since fails. -/
theorem trace_monotonicity_claim_false :
    Trace.from_proto protoTraceSince5Batch3 = .ok traceSince5Batch3 ∧
    batchWithSince 3 ∈ traceSince5Batch3.batches ∧
    Frontier.less_equal traceSince5Batch3.since (batchWithSince 3).desc.since = false := by
  refine ⟨rfl, ?_, by decide⟩
  simp [traceSince5Batch3]

/-- C3 (amended): decode(encode(·)) recovers the original for every
well-formed State (unique map keys, nonzero lease durations, trace
since-invariant) and every well-formed StateDiff, when the build version
is not older than the applier version. The literal "every State" claim is
refuted by the zero-lease migration. -/
theorem encode_decode_roundtrip :
    (∀ (s : State) (kc vc dc : String) (build : Version), StateWF s →
      Version.lt build s.applier_version = false →
      UntypedState.decode build (TypedState.encode kc vc dc ⟨s⟩) =
        .ok ⟨kc, vc, u64CodecName, dc, s⟩) ∧
    (∀ (d : StateDiff) (build : Version), StateDiffWF d →
      Version.lt build d.applier_version = false →
      StateDiff.decode build d.encode = .ok d) := by
  constructor
  · intro s kc vc dc build hwf hlt
    have hred : UntypedState.decode build (TypedState.encode kc vc dc ⟨s⟩) =
        (match UntypedState.from_proto (s.into_proto kc vc dc) with
          | .error _ => .error (.invalidState "internal error: invalid encoded state")
          | .ok u =>
            match check_applier_version build u.state.applier_version with
            | some msg => .error (.halt msg)
            | none => .ok u) := rfl
    rw [hred, untypedState_from_proto_into_proto s kc vc dc hwf]
    simp [check_applier_version, hlt]
  · intro d build hwf hlt
    have hred : StateDiff.decode build d.encode =
        (match StateDiff.from_proto d.into_proto with
          | .error _ => .error (.invalidState "internal error: invalid encoded state")
          | .ok x =>
            match check_applier_version build x.applier_version with
            | some msg => .error (.halt msg)
            | none => .ok x) := rfl
    rw [hred, stateDiff_from_proto_into_proto d hwf]
    simp [check_applier_version, hlt]

/-- Witness for C3's amended round trip on a concrete state and diff. -/
theorem encode_decode_roundtrip_witness :
    (StateWF exampleEmptyState ∧
      UntypedState.decode ⟨2, 0, 0⟩ (TypedState.encode "()" "()" "i64" ⟨exampleEmptyState⟩) =
        .ok ⟨"()", "()", "u64", "i64", exampleEmptyState⟩) ∧
    (StateDiffWF exampleStateDiff ∧
      StateDiff.decode ⟨3, 0, 0⟩ exampleStateDiff.encode = .ok exampleStateDiff) := by
  refine ⟨⟨by decide, ?_⟩, ⟨by decide, ?_⟩⟩
  · exact encode_decode_roundtrip.1 exampleEmptyState "()" "()" "i64" ⟨2, 0, 0⟩
      (by decide) (by decide)
  · exact encode_decode_roundtrip.2 exampleStateDiff ⟨3, 0, 0⟩ (by decide) (by decide)

/-- Counterexample to C3 as stated: a state holding a leased reader with
`lease_duration_ms = 0` decodes to a different state — the decoder's
migration substitutes the platform default lease duration. -/
theorem encode_decode_roundtrip_false :
    UntypedState.decode ⟨2, 0, 0⟩ (TypedState.encode "()" "()" "i64" ⟨stateWithZeroLease⟩) =
      .ok ⟨"()", "()", "u64", "i64", stateWithDefaultLease⟩ ∧
    stateWithDefaultLease ≠ stateWithZeroLease := by
  constructor
  · rfl
  · intro h
    have h2 := congrArg
      (fun s : State => s.collections.leased_readers.map fun kv => kv.2.lease_duration_ms) h
    simp [stateWithDefaultLease, stateWithZeroLease, readerWithZeroLease,
      DEFAULT_READ_LEASE_DURATION_MS] at h2

/-- C4: on every decode of a rollup or diff whose buffer converts
successfully, the process halts abnormally if and only if the build
version is strictly older than the decoded applier version, the halt
diagnostic is exactly "<build_version> received persist state from the
future <applier_version>", and otherwise the decode returns the converted
value. -/
theorem applier_version_gate :
    (∀ (build : Version) (p : ProtoStateRollup) (u : UntypedState),
      UntypedState.from_proto p = .ok u →
      ((UntypedState.decode build (some p) =
          .error (.halt (build.toString ++ " received persist state from the future " ++
            u.state.applier_version.toString)) ↔
        Version.lt build u.state.applier_version = true) ∧
      (Version.lt build u.state.applier_version = false →
        UntypedState.decode build (some p) = .ok u))) ∧
    (∀ (build : Version) (p : ProtoStateDiff) (d : StateDiff),
      StateDiff.from_proto p = .ok d →
      ((StateDiff.decode build (some p) =
          .error (.halt (build.toString ++ " received persist state from the future " ++
            d.applier_version.toString)) ↔
        Version.lt build d.applier_version = true) ∧
      (Version.lt build d.applier_version = false →
        StateDiff.decode build (some p) = .ok d))) := by
  constructor
  · intro build p u hfp
    have hred : UntypedState.decode build (some p) =
        (match UntypedState.from_proto p with
          | .error _ => .error (.invalidState "internal error: invalid encoded state")
          | .ok s =>
            match check_applier_version build s.state.applier_version with
            | some msg => .error (.halt msg)
            | none => .ok s) := rfl
    rw [hred, hfp]
    constructor
    · constructor
      · intro h
        by_cases hlt : Version.lt build u.state.applier_version = true
        · exact hlt
        · rw [Bool.not_eq_true] at hlt
          simp [check_applier_version, hlt] at h
      · intro hlt
        simp [check_applier_version, hlt]
    · intro hlt
      simp [check_applier_version, hlt]
  · intro build p d hfp
    have hred : StateDiff.decode build (some p) =
        (match StateDiff.from_proto p with
          | .error _ => .error (.invalidState "internal error: invalid encoded state")
          | .ok d =>
            match check_applier_version build d.applier_version with
            | some msg => .error (.halt msg)
            | none => .ok d) := rfl
    rw [hred, hfp]
    constructor
    · constructor
      · intro h
        by_cases hlt : Version.lt build d.applier_version = true
        · exact hlt
        · rw [Bool.not_eq_true] at hlt
          simp [check_applier_version, hlt] at h
      · intro hlt
        simp [check_applier_version, hlt]
    · intro hlt
      simp [check_applier_version, hlt]

/-- Witness for C4 at concrete versions: a rollup written at 2.0.0 halts a
1.0.0 reader with the exact diagnostic and decodes cleanly at 3.0.0. -/
theorem applier_version_gate_witness :
    UntypedState.decode ⟨1, 0, 0⟩ (some (exampleEmptyState.into_proto "()" "()" "i64")) =
      .error (.halt ((⟨1, 0, 0⟩ : Version).toString ++
        " received persist state from the future " ++ (⟨2, 0, 0⟩ : Version).toString)) ∧
    UntypedState.decode ⟨3, 0, 0⟩ (some (exampleEmptyState.into_proto "()" "()" "i64")) =
      .ok exampleUntypedState := by
  have hfp : UntypedState.from_proto (exampleEmptyState.into_proto "()" "()" "i64") =
      .ok exampleUntypedState :=
    untypedState_from_proto_into_proto exampleEmptyState "()" "()" "i64" (by decide)
  constructor
  · exact (applier_version_gate.1 ⟨1, 0, 0⟩ _ _ hfp).1.mpr (by decide)
  · exact (applier_version_gate.1 ⟨3, 0, 0⟩ _ _ hfp).2 (by decide)

/-- C5: given the stored shard id equals the requested one, check_codecs
returns the typed state exactly when all four codec names match the
requested ones, and otherwise returns a CodecMismatch carrying the
requested and actual tuples. -/
theorem check_codecs_gate (u : UntypedState) (kName vName dName : String) (sid : ShardId)
    (h : sid = u.state.shard_id) :
    (UntypedState.check_codecs kName vName dName sid u = .ok (.ok ⟨u.state⟩) ↔
      (kName = u.key_codec ∧ vName = u.val_codec ∧ u64CodecName = u.ts_codec ∧
        dName = u.diff_codec)) ∧
    (¬(kName = u.key_codec ∧ vName = u.val_codec ∧ u64CodecName = u.ts_codec ∧
        dName = u.diff_codec) →
      UntypedState.check_codecs kName vName dName sid u = .ok (.error
        { requested := (kName, vName, u64CodecName, dName, none)
          actual := (u.key_codec, u.val_codec, u.ts_codec, u.diff_codec, none) })) := by
  unfold UntypedState.check_codecs
  rw [if_neg (by simp [h])]
  by_cases hc : kName ≠ u.key_codec ∨ vName ≠ u.val_codec ∨ u64CodecName ≠ u.ts_codec ∨
      dName ≠ u.diff_codec
  · rw [if_pos hc]
    constructor
    · constructor
      · intro he
        simp at he
      · intro hall
        exfalso
        tauto
    · intro _
      rfl
  · rw [if_neg hc]
    push_neg at hc
    constructor
    · constructor
      · intro _
        exact ⟨hc.1, hc.2.1, hc.2.2.1, hc.2.2.2⟩
      · intro _
        rfl
    · intro hn
      exact absurd ⟨hc.1, hc.2.1, hc.2.2.1, hc.2.2.2⟩ hn

/-- Witness for C5: matching codecs pass the gate; an alien key codec
yields the mismatch carrying both tuples. -/
theorem check_codecs_gate_witness :
    UntypedState.check_codecs "()" "()" "i64" exampleShardId exampleUntypedState =
      .ok (.ok ⟨exampleEmptyState⟩) ∧
    UntypedState.check_codecs "String" "()" "i64" exampleShardId exampleUntypedState =
      .ok (.error
        { requested := ("String", "()", u64CodecName, "i64", none)
          actual := ("()", "()", "u64", "i64", none) }) := by
  constructor
  · exact (check_codecs_gate exampleUntypedState "()" "()" "i64" exampleShardId rfl).1.mpr
      (by decide)
  · exact (check_codecs_gate exampleUntypedState "String" "()" "i64" exampleShardId rfl).2
      (by decide)

/-- C6: applying encoded diffs to an untyped state whose stored timestamp
codec differs from `T::codec_name()` is a silent no-op leaving every field
unchanged; when it matches, the diffs are applied to the inner state. -/
theorem apply_encoded_diffs_guard (cfg : PersistConfig) (u : UntypedState)
    (diffs : List VersionedData) :
    (u.ts_codec ≠ u64CodecName → UntypedState.apply_encoded_diffs cfg u diffs = u) ∧
    (u.ts_codec = u64CodecName →
      UntypedState.apply_encoded_diffs cfg u diffs =
        { u with state := u.state.apply_encoded_diffs cfg diffs }) := by
  unfold UntypedState.apply_encoded_diffs
  constructor
  · intro h
    rw [if_pos (fun he => h he.symm)]
  · intro h
    rw [if_neg (by simp [h])]

/-- Witness for C6: an alien timestamp codec leaves the state untouched; a
matching one applies the (empty) diff sequence to the inner state. -/
theorem apply_encoded_diffs_guard_witness :
    UntypedState.apply_encoded_diffs ⟨⟨2, 0, 0⟩⟩ ⟨"()", "()", "i64", "i64", exampleEmptyState⟩
      [] = ⟨"()", "()", "i64", "i64", exampleEmptyState⟩ ∧
    UntypedState.apply_encoded_diffs ⟨⟨2, 0, 0⟩⟩ exampleUntypedState [] =
      { exampleUntypedState with
        state := exampleEmptyState.apply_encoded_diffs ⟨⟨2, 0, 0⟩⟩ [] } := by
  constructor
  · exact (apply_encoded_diffs_guard ⟨⟨2, 0, 0⟩⟩ _ []).1 (by decide)
  · exact (apply_encoded_diffs_guard ⟨⟨2, 0, 0⟩⟩ exampleUntypedState []).2 rfl

/-- C7: hollow-batch migration — the concrete wire record with
`deprecated_keys = ["b"]` and `parts = [("a", 5)]` decodes to parts
`[("a", 5), ("b", 0)]` in that order, and in general every decoded batch's
parts are the structured parts followed by one zero-sized part per legacy
key, in order. -/
theorem hollow_batch_migration :
    (HollowBatch.from_proto protoBatchAB = .ok batchABDecoded) ∧
    (∀ (p : ProtoHollowBatch) (b : HollowBatch), HollowBatch.from_proto p = .ok b →
      b.parts = p.parts.map HollowBatchPart.from_proto ++
        p.deprecated_keys.map fun key => HollowBatchPart.mk key 0) := by
  constructor
  · rfl
  · intro p b h
    unfold HollowBatch.from_proto at h
    cases hd : intoRustIfSome Description.from_proto "desc" p.desc with
    | error e =>
      rw [hd] at h
      simp [exceptBindErr] at h
    | ok ddesc =>
      rw [hd] at h
      simp only [exceptBindOk, pure_bind] at h
      cases h
      rfl

/-- Witness for C7's general migration rule at the concrete record. -/
theorem hollow_batch_migration_witness :
    batchABDecoded.parts = protoBatchAB.parts.map HollowBatchPart.from_proto ++
      protoBatchAB.deprecated_keys.map fun key => HollowBatchPart.mk key 0 :=
  hollow_batch_migration.2 protoBatchAB batchABDecoded rfl

/-- C8: writer-state migration — an empty write token decodes to the
sentinel idempotency token and an absent write upper to the antichain
holding `T::minimum()`; encoded (non-empty, present) fields decode to
themselves. -/
theorem writer_state_migration :
    (∀ p : ProtoWriterState, p.most_recent_write_token = "" →
      p.most_recent_write_upper = none →
      WriterState.from_proto p = .ok
        ⟨p.last_heartbeat_timestamp_ms, p.lease_duration_ms, IdempotencyToken.SENTINEL,
          frontierFromElem u64Minimum,
          HandleDebugState.from_proto (p.debug.getD ProtoHandleDebugState.default)⟩) ∧
    (∀ w : WriterState, WriterState.from_proto w.into_proto = .ok w) := by
  constructor
  · intro p ht hu
    unfold WriterState.from_proto
    rw [ht, hu]
    simp [exceptBindOk]
  · exact writerState_roundtrip

/-- Witness for C8 at a concrete legacy wire record and a concrete writer
state. -/
theorem writer_state_migration_witness :
    WriterState.from_proto ⟨1, 2, "", none, some ⟨"host", "purpose"⟩⟩ =
      .ok ⟨1, 2, IdempotencyToken.SENTINEL, frontierFromElem u64Minimum,
        ⟨"host", "purpose"⟩⟩ :=
  writer_state_migration.1 ⟨1, 2, "", none, some ⟨"host", "purpose"⟩⟩ rfl rfl

/-- C9: the antichain timestamp encoding — each element travels as the
signed-64-bit reinterpretation of its 8 little-endian bytes — is lossless:
decoding inverts encoding on every `u64` timestamp, and decoding an
encoded antichain recovers it. -/
theorem antichain_codec_lossless :
    (∀ t : U64, u64DecodeI64 (u64EncodeI64 t) = t) ∧
    (∀ a : Frontier, Frontier.from_proto a.into_proto = .ok a) :=
  ⟨u64DecodeI64_u64EncodeI64, frontier_from_proto_into_proto⟩

/-- C10: an undecodable buffer, or one whose message fails the from_proto
conversion, makes decode abort with the panic message "internal error:
invalid encoded state" rather than return an error value, for rollups and
diffs alike; and the panic branch is unreachable for buffers produced by
encoding a well-formed state or diff. -/
theorem decode_invalid_state_abort :
    (∀ build : Version, UntypedState.decode build none =
      .error (.invalidState "internal error: invalid encoded state")) ∧
    (∀ (build : Version) (p : ProtoStateRollup) (e : TryFromProtoError),
      UntypedState.from_proto p = .error e →
      UntypedState.decode build (some p) =
        .error (.invalidState "internal error: invalid encoded state")) ∧
    (∀ build : Version, StateDiff.decode build none =
      .error (.invalidState "internal error: invalid encoded state")) ∧
    (∀ (build : Version) (p : ProtoStateDiff) (e : TryFromProtoError),
      StateDiff.from_proto p = .error e →
      StateDiff.decode build (some p) =
        .error (.invalidState "internal error: invalid encoded state")) ∧
    (∀ (s : State) (kc vc dc : String), StateWF s →
      UntypedState.from_proto (s.into_proto kc vc dc) =
        .ok ⟨kc, vc, u64CodecName, dc, s⟩) ∧
    (∀ d : StateDiff, StateDiffWF d → StateDiff.from_proto d.into_proto = .ok d) := by
  refine ⟨fun _ => rfl, ?_, fun _ => rfl, ?_, ?_, ?_⟩
  · intro build p e h
    have hred : UntypedState.decode build (some p) =
        (match UntypedState.from_proto p with
          | .error _ => .error (.invalidState "internal error: invalid encoded state")
          | .ok s =>
            match check_applier_version build s.state.applier_version with
            | some msg => .error (.halt msg)
            | none => .ok s) := rfl
    rw [hred, h]
  · intro build p e h
    have hred : StateDiff.decode build (some p) =
        (match StateDiff.from_proto p with
          | .error _ => .error (.invalidState "internal error: invalid encoded state")
          | .ok d =>
            match check_applier_version build d.applier_version with
            | some msg => .error (.halt msg)
            | none => .ok d) := rfl
    rw [hred, h]
  · exact fun s kc vc dc h => untypedState_from_proto_into_proto s kc vc dc h
  · exact fun d h => stateDiff_from_proto_into_proto d h

/-- Witness for C10: a rollup missing its trace and a diff with a bad
version string both abort with the exact panic message, while an encoded
well-formed state converts cleanly. -/
theorem decode_invalid_state_abort_witness :
    UntypedState.decode ⟨1, 0, 0⟩ (some protoRollupMissingTrace) =
      .error (.invalidState "internal error: invalid encoded state") ∧
    StateDiff.decode ⟨1, 0, 0⟩ (some protoDiffBadVersion) =
      .error (.invalidState "internal error: invalid encoded state") ∧
    UntypedState.from_proto (exampleEmptyState.into_proto "()" "()" "i64") =
      .ok ⟨"()", "()", "u64", "i64", exampleEmptyState⟩ := by
  refine ⟨?_, ?_, ?_⟩
  · exact decode_invalid_state_abort.2.1 ⟨1, 0, 0⟩ protoRollupMissingTrace
      (.missingField "trace") (by decide)
  · exact decode_invalid_state_abort.2.2.2.1 ⟨1, 0, 0⟩ protoDiffBadVersion
      (.invalidSemverVersion "invalid applier_version not-a-version: parse error") (by decide)
  · exact decode_invalid_state_abort.2.2.2.2.1 exampleEmptyState "()" "()" "i64" (by decide)

end Persist
